import Mathlib

/-!
TestHint (dbms/programs/client/TestHint.h)

A shallow embedding of the `TestHint` class of the ClickHouse client and of the
parts of the C++ standard library it runs on (`std::string::find`, the formatted
extraction operators of `std::stringstream`), followed by theorems about it.

Conventions of the embedding

* a `std::string` is a `List Char`, one `Char` per byte of the string;
* an `int` is an `Int`; the only place where the 32-bit range matters is the
  formatted extraction `ss >> int`, which clamps to `[INT_MIN, INT_MAX]`;
* reference parameters of `checkActual` are passed in as an `Outcome` and handed
  back in the result, together with the (unchanged, the method is `const`) object;
* the loop of `parse` runs on fuel; `none` stands for a construction that does not
  complete (fuel exhausted, or an iterator range whose end precedes its start).
-/

namespace DB

/-! ## Lexer interface -/

/-- Modelled from the spec: type tags of the tokens of `Parsers/Lexer.h`, which is not part
of the sources at hand. The spec names a `Comment` variant and an end-of-input sentinel;
the other tags stand for every non-comment kind of token. -/
inductive TokenType
  | Whitespace
  | Comment
  | BareWord
  | Number
  | StringLiteral
  | Other
  | EndOfStream
  deriving DecidableEq, Repr

/-- Modelled from the spec: a token of `Parsers/Lexer.h`, a type tag and the bytes
`[begin, end)` of the query it spans. -/
structure Token where
  type : TokenType
  text : List Char
  deriving DecidableEq, Repr

/-- `Token::isEnd`. -/
def Token.isEnd (t : Token) : Bool := t.type = TokenType.EndOfStream

/-! ## Standard library: strings and string streams -/

/-- `INT_MAX` of a 32-bit `int`. -/
def INT_MAX : Int := 2147483647

/-- `INT_MIN` of a 32-bit `int`. -/
def INT_MIN : Int := -2147483648

/-- Scan of `std::string::find (char)`: index of the first `c` in `s`, counting from `i`. -/
def findAux (c : Char) : List Char → Nat → Option Nat
  | [], _ => none
  | x :: xs, i => if x = c then some i else findAux c xs (i + 1)

/-- `std::string::find (c, pos)`: position of the first `c` at or after `pos`,
`none` for `npos`. -/
def find (s : List Char) (c : Char) (pos : Nat) : Option Nat :=
  findAux c (s.drop pos) pos

/-- `std::isspace` in the classic locale: space, `\t`, `\n`, `\v`, `\f`, `\r`. -/
def isspace (c : Char) : Bool :=
  c.toNat = 32 ∨ (9 ≤ c.toNat ∧ c.toNat ≤ 13)

/-- Decimal digit test of `num_get`. -/
def isdigit (c : Char) : Bool :=
  48 ≤ c.toNat ∧ c.toNat ≤ 57

/-- Value of a run of decimal digits, most significant first. -/
def digitsValue (ds : List Char) : Nat :=
  ds.foldl (fun acc c => acc * 10 + (c.toNat - 48)) 0

/-- Read side of a `std::stringstream`: the characters not yet extracted and the
two state bits the code can observe. -/
structure StringStream where
  buf : List Char
  eofbit : Bool
  failbit : Bool
  deriving DecidableEq, Repr

/-- `std::stringstream ss; ss << hint;`. -/
def StringStream.ofString (hint : List Char) : StringStream :=
  { buf := hint, eofbit := false, failbit := false }

/-- `std::istream::sentry` with `skipws` set: a stream that is not `good()` gets
`failbit`; otherwise leading whitespace is skipped, and running into the end of the
buffer sets `eofbit` and `failbit`. -/
def sentry (ss : StringStream) : StringStream × Bool :=
  if ss.eofbit || ss.failbit then
    ({ ss with failbit := true }, false)
  else
    let rest := ss.buf.dropWhile isspace
    if rest.isEmpty then
      ({ buf := [], eofbit := true, failbit := true }, false)
    else
      ({ ss with buf := rest }, true)

/-- `ss >> item` for a `std::string`: after a successful sentry the string is erased and
receives the characters up to the next whitespace or the end of the buffer, reaching
the end sets `eofbit`. A failed sentry leaves `item` alone. -/
def extractString (ss : StringStream) (item : List Char) : StringStream × List Char :=
  let (ss1, ok) := sentry ss
  if ok then
    let word := ss1.buf.takeWhile (fun c => !isspace c)
    let rest := ss1.buf.dropWhile (fun c => !isspace c)
    ({ buf := rest, eofbit := rest.isEmpty, failbit := word.isEmpty }, word)
  else
    (ss1, item)

/-- `ss >> v` for an `int` (base ten, since C++11): after a successful sentry an optional
sign and the longest run of digits are consumed; no digit stores `0` and sets `failbit`,
a value outside the range of `int` stores the nearest bound and sets `failbit`.
A failed sentry leaves `v` alone. -/
def extractInt (ss : StringStream) (v : Int) : StringStream × Int :=
  let (ss1, ok) := sentry ss
  if ok then
    let signed : Bool × List Char :=
      match ss1.buf with
      | '-' :: r => (true, r)
      | '+' :: r => (false, r)
      | r => (false, r)
    let digits := signed.2.takeWhile isdigit
    let rest := signed.2.dropWhile isdigit
    if digits.isEmpty then
      ({ buf := rest, eofbit := rest.isEmpty, failbit := true }, 0)
    else
      let magnitude : Int := digitsValue digits
      let value : Int := if signed.1 then -magnitude else magnitude
      if value > INT_MAX then
        ({ buf := rest, eofbit := rest.isEmpty, failbit := true }, INT_MAX)
      else if value < INT_MIN then
        ({ buf := rest, eofbit := rest.isEmpty, failbit := true }, INT_MIN)
      else
        ({ buf := rest, eofbit := rest.isEmpty, failbit := false }, value)
  else
    (ss1, v)

/-! ## Exceptions and outcomes -/

/-- `DB::Exception` as far as `TestHint` uses it: a message and an error code. -/
structure Exception where
  message : String
  code : Int
  deriving DecidableEq, Repr

/-- The four reference parameters of `checkActual`; `last_exception` is the
`std::unique_ptr<Exception>`, `none` when it is empty. -/
structure Outcome where
  actual_server_error : Int
  actual_client_error : Int
  got_exception : Bool
  last_exception : Option Exception
  deriving DecidableEq, Repr

/-! ## TestHint -/

/-- Data members of `TestHint`. -/
structure TestHint where
  enabled : Bool := false
  server_error : Int := 0
  client_error : Int := 0
  deriving DecidableEq, Repr

namespace TestHint

/-- `TestHint::serverError`. -/
def serverError (self : TestHint) : Int := self.server_error

/-- `TestHint::clientError`. -/
def clientError (self : TestHint) : Int := self.client_error

/-- The `while (!ss.eof())` loop of `TestHint::parse`, `none` when the fuel runs out. -/
def parseLoop : Nat → StringStream → TestHint → Option TestHint
  | 0, _, _ => none
  | fuel + 1, ss, self =>
    if ss.eofbit then some self
    else
      let r := extractString ss []
      if r.2.isEmpty then some self
      else if r.2 = "serverError".toList then
        let q := extractInt r.1 self.server_error
        parseLoop fuel q.1 { self with server_error := q.2 }
      else if r.2 = "clientError".toList then
        let q := extractInt r.1 self.client_error
        parseLoop fuel q.1 { self with client_error := q.2 }
      else
        parseLoop fuel r.1 self

/-- `TestHint::parse`. Every turn of the loop but the last extracts at least one
character, so `hint.length + 1` turns are enough. -/
def parse (self : TestHint) (hint : List Char) : Option TestHint :=
  parseLoop (hint.length + 1) (StringStream.ofString hint) self

/-- One turn of the `while (!ss.eof())` loop of `TestHint::parse`: the stream and the
object after the turn, `none` when the loop is left (`eof`, or an empty `item`). -/
def parseTurn (ss : StringStream) (self : TestHint) : Option (StringStream × TestHint) :=
  if ss.eofbit then none
  else
    let r := extractString ss []
    if r.2.isEmpty then none
    else if r.2 = "serverError".toList then
      let q := extractInt r.1 self.server_error
      some (q.1, { self with server_error := q.2 })
    else if r.2 = "clientError".toList then
      let q := extractInt r.1 self.client_error
      some (q.1, { self with client_error := q.2 })
    else
      some (r.1, self)

/-- The stream and the object after `n` turns of the loop of `TestHint::parse`, `none`
when the loop is left before. -/
def parseTurns : Nat → StringStream → TestHint → Option (StringStream × TestHint)
  | 0, ss, self => some (ss, self)
  | n + 1, ss, self =>
    match parseTurn ss self with
    | none => none
    | some p => parseTurns n p.1 p.2

/-- The token loop of the constructor: `full_comment += String(token) + ' '` for each
comment token, until the lexer reports the end. -/
def fullComment : List Token → List Char → List Char
  | [], full_comment => full_comment
  | token :: rest, full_comment =>
    if token.isEnd then full_comment
    else if token.type = TokenType.Comment then
      fullComment rest (full_comment ++ (token.text ++ [' ']))
    else
      fullComment rest full_comment

/-- The part of the constructor that follows the token loop. -/
def ofComment (self : TestHint) (full_comment : List Char) : Option TestHint :=
  if !full_comment.isEmpty then
    match find full_comment '{' 0 with
    | some pos_start =>
      match find full_comment '}' pos_start with
      | some pos_end =>
        if pos_start + 1 ≤ pos_end then
          parse self ((full_comment.take pos_end).drop (pos_start + 1))
        else none
      | none => some self
    | none => some self
  else some self

/-- `TestHint::TestHint (enabled_, query)`. The lexer of `Parsers/Lexer.h` is a parameter:
`lexer query` is the sequence of tokens that successive `nextToken` calls return. -/
def new (lexer : List Char → List Token) (enabled_ : Bool) (query : List Char) :
    Option TestHint :=
  let self : TestHint := { enabled := enabled_ }
  if !enabled_ then some self
  else ofComment self (fullComment (lexer query) [])

/-- `TestHint::allErrorsExpected`. -/
def allErrorsExpected (self : TestHint) (actual_server_error actual_client_error : Int) :
    Bool :=
  (self.server_error != 0 || self.client_error != 0)
    && (self.server_error == actual_server_error)
    && (self.client_error == actual_client_error)

/-- `TestHint::lostExpectedError`. -/
def lostExpectedError (self : TestHint) (actual_server_error actual_client_error : Int) :
    Bool :=
  (self.server_error != 0 && actual_server_error == 0)
    || (self.client_error != 0 && actual_client_error == 0)

/-- What a call of `checkActual` leaves behind: the return value, the object itself, the
four reference parameters and the text written to `std::cerr`. -/
structure CheckResult where
  ret : Bool
  self : TestHint
  outcome : Outcome
  cerr : String
  deriving DecidableEq, Repr

/-- `TestHint::checkActual`. `LOGICAL_ERROR` is `ErrorCodes::LOGICAL_ERROR`, declared
`extern` in the header and defined elsewhere. -/
def checkActual (LOGICAL_ERROR : Int) (self : TestHint) (o : Outcome) : CheckResult :=
  if !self.enabled then
    { ret := true, self := self, outcome := o, cerr := "" }
  else if self.allErrorsExpected o.actual_server_error o.actual_client_error then
    { ret := false
      self := self
      outcome :=
        { actual_server_error := 0
          actual_client_error := 0
          got_exception := false
          last_exception := none }
      cerr := "" }
  else if self.lostExpectedError o.actual_server_error o.actual_client_error then
    { ret := false
      self := self
      outcome :=
        { o with
          got_exception := true
          last_exception := some ⟨"Success when error expected", LOGICAL_ERROR⟩ }
      cerr := "Success when error expected. It expects server error "
        ++ toString self.server_error ++ ", client error " ++ toString self.client_error
        ++ "." ++ "\n" }
  else
    { ret := true, self := self, outcome := o, cerr := "" }

/-- The body of `checkActual` with its two tests taken in the other order,
`lostExpectedError` first. It is not in the source; it serves to state that the order
of the two tests does not matter. -/
def checkActualSwapped (LOGICAL_ERROR : Int) (self : TestHint) (o : Outcome) : CheckResult :=
  if !self.enabled then
    { ret := true, self := self, outcome := o, cerr := "" }
  else if self.lostExpectedError o.actual_server_error o.actual_client_error then
    { ret := false
      self := self
      outcome :=
        { o with
          got_exception := true
          last_exception := some ⟨"Success when error expected", LOGICAL_ERROR⟩ }
      cerr := "Success when error expected. It expects server error "
        ++ toString self.server_error ++ ", client error " ++ toString self.client_error
        ++ "." ++ "\n" }
  else if self.allErrorsExpected o.actual_server_error o.actual_client_error then
    { ret := false
      self := self
      outcome :=
        { actual_server_error := 0
          actual_client_error := 0
          got_exception := false
          last_exception := none }
      cerr := "" }
  else
    { ret := true, self := self, outcome := o, cerr := "" }

end TestHint

/-! ## Lexers used to instantiate the theorems -/

/-- A lexer that returns the whole query as one comment token, then the end. -/
def commentLexer (query : List Char) : List Token :=
  [⟨TokenType.Comment, query⟩, ⟨TokenType.EndOfStream, []⟩]

/-- A lexer that returns the whole query as one bare word, then the end. -/
def wordLexer (query : List Char) : List Token :=
  [⟨TokenType.BareWord, query⟩, ⟨TokenType.EndOfStream, []⟩]

/-- Comment token `-- { serverError N }` of the directive syntax, `N` in decimal. -/
def serverErrorComment (N : Nat) : Token :=
  ⟨TokenType.Comment, "-- \x7b serverError ".toList ++ (Nat.repr N).toList ++ " \x7d".toList⟩

/-- Comment token `-- { clientError N }` of the directive syntax, `N` in decimal. -/
def clientErrorComment (N : Nat) : Token :=
  ⟨TokenType.Comment, "-- \x7b clientError ".toList ++ (Nat.repr N).toList ++ " \x7d".toList⟩

/-- Comment token `-- { serverError N, clientError M }` of the directive syntax, `N` and
`M` in decimal, the comma directly behind `N`. -/
def serverClientErrorComment (N M : Nat) : Token :=
  ⟨TokenType.Comment, "-- \x7b serverError ".toList ++ (Nat.repr N).toList
    ++ ", clientError ".toList ++ (Nat.repr M).toList ++ " \x7d".toList⟩

/-- The comment tokens the token loop of the constructor gets to see: those before the
first end-of-stream token. -/
def commentTokens (tokens : List Token) : List Token :=
  (tokens.takeWhile (fun t => !t.isEnd)).filter (fun t => t.type = TokenType.Comment)

open TestHint

/-- Whether a whitespace-delimited token begins with an integer as `ss >> int` reads one:
a digit, or a sign followed by a digit. -/
def startsWithInteger (tok : List Char) : Bool :=
  match tok with
  | [] => false
  | x :: xs =>
    isdigit x || ((x = '-' || x = '+') && (match xs with
      | [] => false
      | y :: _ => isdigit y))

/-- The first whitespace-delimited token of a text, empty when the text holds none. -/
def nextWord (text : List Char) : List Char :=
  (text.dropWhile isspace).takeWhile (fun c => !isspace c)

/-- The text behind its first whitespace-delimited token. -/
def afterWord (text : List Char) : List Char :=
  (text.dropWhile isspace).dropWhile (fun c => !isspace c)

/-- The whitespace-delimited tokens of a directive body. -/
def words (body : List Char) : List (List Char) :=
  (body.splitOnP isspace).filter (fun w => !w.isEmpty)

/-! ## Lemmas on `find` and on the token loop -/

theorem findAux_of_not_mem (c : Char) :
    ∀ (xs : List Char) (i : Nat), c ∉ xs → findAux c xs i = none
  | [], _, _ => rfl
  | x :: xs, i, h => by
    have hx : x ≠ c := fun e => h (e ▸ List.mem_cons_self _ _)
    have hxs : c ∉ xs := fun e => h (List.mem_cons_of_mem _ e)
    simp [findAux, hx, findAux_of_not_mem c xs (i + 1) hxs]

theorem findAux_first (c : Char) :
    ∀ (pre post : List Char) (i : Nat), c ∉ pre →
      findAux c (pre ++ c :: post) i = some (i + pre.length)
  | [], _, _, _ => by simp [findAux]
  | x :: pre, post, i, h => by
    have hx : x ≠ c := fun e => h (e ▸ List.mem_cons_self _ _)
    have hpre : c ∉ pre := fun e => h (List.mem_cons_of_mem _ e)
    rw [List.cons_append, findAux, if_neg hx, findAux_first c pre post (i + 1) hpre,
      List.length_cons]
    exact congrArg some (by omega)

theorem fullComment_eq :
    ∀ (tokens : List Token) (acc : List Char),
      fullComment tokens acc
        = acc ++ ((commentTokens tokens).map (fun t => t.text ++ [' '])).flatten
  | [], acc => by simp [fullComment, commentTokens]
  | t :: ts, acc => by
    by_cases hend : t.isEnd = true
    · simp [fullComment, commentTokens, hend]
    · by_cases hc : t.type = TokenType.Comment
      · have ih := fullComment_eq ts (acc ++ (t.text ++ [' ']))
        simp only [commentTokens] at ih
        simp [fullComment, commentTokens, hend, hc, ih, List.takeWhile_cons, List.filter_cons]
      · have ih := fullComment_eq ts acc
        simp only [commentTokens] at ih
        simp [fullComment, commentTokens, hend, hc, ih, List.takeWhile_cons, List.filter_cons]

/-- Without a `{` in the comment text the constructor leaves the object as it is. -/
theorem ofComment_no_open (self : TestHint) (fc : List Char) (h : '{' ∉ fc) :
    ofComment self fc = some self := by
  unfold ofComment
  split
  · simp [find, findAux_of_not_mem _ fc 0 h]
  · rfl

/-- Without a `}` behind the first `{` the constructor leaves the object as it is. -/
theorem ofComment_no_close (self : TestHint) (pre post : List Char)
    (hpre : '{' ∉ pre) (hpost : '}' ∉ post) :
    ofComment self (pre ++ '{' :: post) = some self := by
  have hstart : find (pre ++ '{' :: post) '{' 0 = some pre.length := by
    simp [find, findAux_first _ pre post 0 hpre]
  have hend : find (pre ++ '{' :: post) '}' pre.length = none := by
    have hmem : '}' ∉ '{' :: post := by
      simp only [List.mem_cons, not_or]
      exact ⟨by decide, hpost⟩
    simp only [find, List.drop_left]
    exact findAux_of_not_mem _ _ _ hmem
  simp [ofComment, hstart, hend]

/-- With a first `{` and a first `}` behind it, the constructor parses what stands
between the two. -/
theorem ofComment_braces (self : TestHint) (pre body post : List Char)
    (hpre : '{' ∉ pre) (hbody : '}' ∉ body) :
    ofComment self (pre ++ '{' :: (body ++ '}' :: post)) = parse self body := by
  have hstart : find (pre ++ '{' :: (body ++ '}' :: post)) '{' 0 = some pre.length := by
    simp [find, findAux_first _ pre (body ++ '}' :: post) 0 hpre]
  have hend : find (pre ++ '{' :: (body ++ '}' :: post)) '}' pre.length
      = some (pre.length + 1 + body.length) := by
    simp only [find, List.drop_left]
    have hne : ('{' : Char) ≠ '}' := by decide
    simp only [findAux, hne, if_false]
    exact findAux_first _ body post (pre.length + 1) hbody
  have htake : ((pre ++ '{' :: (body ++ '}' :: post)).take (pre.length + 1 + body.length)).drop
      (pre.length + 1) = body := by
    have e1 : pre ++ '{' :: (body ++ '}' :: post) = (pre ++ '{' :: body) ++ '}' :: post := by
      simp
    have l1 : (pre ++ '{' :: body).length = pre.length + 1 + body.length := by
      simp; omega
    rw [e1, ← l1, List.take_left]
    have e2 : pre ++ '{' :: body = (pre ++ ['{']) ++ body := by simp
    have l2 : (pre ++ ['{']).length = pre.length + 1 := by simp
    rw [e2, ← l2, List.drop_left]
  have hle : pre.length + 1 ≤ pre.length + 1 + body.length := by omega
  simp only [ofComment, hstart, hend, htake, hle, if_true]
  simp

/-! ## Lemmas on the stream operations -/

theorem isdigit_iff (c : Char) : isdigit c = true ↔ 48 ≤ c.toNat ∧ c.toNat ≤ 57 := by
  simp [isdigit]

theorem isspace_iff (c : Char) : isspace c = true ↔ c.toNat = 32 ∨ (9 ≤ c.toNat ∧ c.toNat ≤ 13) := by
  simp [isspace]

theorem isspace_of_isdigit {c : Char} (h : isdigit c = true) : isspace c = false := by
  rw [Bool.eq_false_iff, Ne, isspace_iff]
  rw [isdigit_iff] at h
  omega

/-- A sentry on a good stream skips the leading whitespace. -/
theorem sentry_skip (ws : List Char) (c : Char) (rest : List Char)
    (hws : ∀ x ∈ ws, isspace x = true) (hc : isspace c = false) :
    sentry ⟨ws ++ c :: rest, false, false⟩ = (⟨c :: rest, false, false⟩, true) := by
  simp [sentry, List.dropWhile_append_of_pos hws, List.dropWhile_cons, hc]

theorem sentry_end (ws : List Char) (hws : ∀ x ∈ ws, isspace x = true) :
    sentry ⟨ws, false, false⟩ = (⟨[], true, true⟩, false) := by
  have h : ws.dropWhile isspace = [] := List.dropWhile_eq_nil_iff.2 hws
  simp [sentry, h]

theorem extractString_end (ws : List Char) (hws : ∀ x ∈ ws, isspace x = true) :
    extractString ⟨ws, false, false⟩ [] = (⟨[], true, true⟩, []) := by
  simp [extractString, sentry_end ws hws]

theorem extractString_word (ws : List Char) (a : Char) (w : List Char) (c : Char)
    (rest : List Char)
    (hws : ∀ x ∈ ws, isspace x = true) (hw : ∀ x ∈ a :: w, isspace x = false)
    (hc : isspace c = true) :
    extractString ⟨ws ++ (a :: w ++ c :: rest), false, false⟩ []
      = (⟨c :: rest, false, false⟩, a :: w) := by
  have ha : isspace a = false := hw a (List.mem_cons_self _ _)
  have hw' : ∀ x ∈ a :: w, (fun c => !isspace c) x = true := by
    intro x hx; simp [hw x hx]
  have e : ws ++ (a :: w ++ c :: rest) = ws ++ a :: (w ++ c :: rest) := by simp
  rw [extractString, e, sentry_skip ws a _ hws ha]
  have e2 : a :: (w ++ c :: rest) = (a :: w) ++ c :: rest := by simp
  simp only [if_true]
  rw [e2, List.takeWhile_append_of_pos hw', List.dropWhile_append_of_pos hw']
  simp [List.takeWhile_cons, List.dropWhile_cons, hc]

theorem extractInt_digits (ws : List Char) (d : Char) (ds : List Char) (c : Char)
    (rest : List Char) (v : Int)
    (hws : ∀ x ∈ ws, isspace x = true) (hds : ∀ x ∈ d :: ds, isdigit x = true)
    (hc : isdigit c = false) (hv : digitsValue (d :: ds) ≤ 2147483647) :
    extractInt ⟨ws ++ (d :: ds ++ c :: rest), false, false⟩ v
      = (⟨c :: rest, false, false⟩, (digitsValue (d :: ds) : Int)) := by
  have hd : isdigit d = true := hds d (List.mem_cons_self _ _)
  have hsp : isspace d = false := isspace_of_isdigit hd
  have hminus : d ≠ '-' := by
    intro e; rw [e] at hd; exact absurd hd (by decide)
  have hplus : d ≠ '+' := by
    intro e; rw [e] at hd; exact absurd hd (by decide)
  have e : ws ++ (d :: ds ++ c :: rest) = ws ++ d :: (ds ++ c :: rest) := by simp
  rw [extractInt, e, sentry_skip ws d _ hws hsp]
  have hsigned : (match (d :: (ds ++ c :: rest) : List Char) with
      | '-' :: r => (true, r)
      | '+' :: r => (false, r)
      | r => (false, r)) = (false, d :: (ds ++ c :: rest)) := by
    split
    · rename_i heq; simp at heq; exact absurd heq.1 hminus
    · rename_i heq; simp at heq; exact absurd heq.1 hplus
    · rfl
  simp only [if_true, hsigned]
  have e2 : d :: (ds ++ c :: rest) = (d :: ds) ++ c :: rest := by simp
  rw [e2, List.takeWhile_append_of_pos hds, List.dropWhile_append_of_pos hds]
  have hmax : ¬ ((digitsValue (d :: ds) : Int) > INT_MAX) := by
    simp only [INT_MAX]; omega
  have hmin : ¬ ((digitsValue (d :: ds) : Int) < INT_MIN) := by
    simp only [INT_MIN]; omega
  simp [List.takeWhile_cons, List.dropWhile_cons, hc, hmax, hmin]
theorem dropWhile_head_false (p : Char → Bool) :
    ∀ (l : List Char) (c : Char) (r : List Char), l.dropWhile p = c :: r → p c = false
  | [], _, _, h => by simp at h
  | a :: l, c, r, h => by
    by_cases ha : p a = true
    · rw [List.dropWhile_cons, if_pos ha] at h
      exact dropWhile_head_false p l c r h
    · rw [List.dropWhile_cons, if_neg ha] at h
      have e : a = c := (List.cons.inj h).1
      rw [← e]
      simpa using ha

/-! ## Decimal numerals -/

theorem digitChar_toNat (k : Nat) (hk : k < 10) : (Nat.digitChar k).toNat = 48 + k := by
  interval_cases k <;> rfl

theorem digitsValue_concat (l : List Char) (c : Char) :
    digitsValue (l ++ [c]) = digitsValue l * 10 + (c.toNat - 48) := by
  simp [digitsValue, List.foldl_append]

theorem toDigitsCore_spec :
    ∀ (fuel n : Nat) (acc : List Char), n < fuel →
      ∃ l : List Char, Nat.toDigitsCore 10 fuel n acc = l ++ acc ∧ l ≠ []
        ∧ (∀ c ∈ l, isdigit c = true) ∧ digitsValue l = n
  | 0, _, _, h => absurd h (Nat.not_lt_zero _)
  | fuel + 1, n, acc, h => by
    have hmod : n % 10 < 10 := Nat.mod_lt _ (by decide)
    have hdig : isdigit (Nat.digitChar (n % 10)) = true := by
      rw [isdigit_iff, digitChar_toNat _ hmod]; omega
    by_cases hq : n / 10 = 0
    · refine ⟨[Nat.digitChar (n % 10)], by simp [Nat.toDigitsCore, hq], by simp, ?_, ?_⟩
      · intro c hc
        rw [List.mem_singleton] at hc
        rw [hc]; exact hdig
      · simp only [digitsValue, List.foldl_cons, List.foldl_nil, digitChar_toNat _ hmod]
        omega
    · have hlt : n / 10 < fuel := by omega
      obtain ⟨l, hl, _, hall, hval⟩ :=
        toDigitsCore_spec fuel (n / 10) (Nat.digitChar (n % 10) :: acc) hlt
      refine ⟨l ++ [Nat.digitChar (n % 10)], by simp [Nat.toDigitsCore, hq, hl], by simp, ?_, ?_⟩
      · intro c hc
        rcases List.mem_append.1 hc with hc | hc
        · exact hall c hc
        · rw [List.mem_singleton] at hc
          rw [hc]; exact hdig
      · rw [digitsValue_concat, hval, digitChar_toNat _ hmod]
        omega

/-- The decimal numeral of `n` is a non-empty run of digits whose value is `n`. -/
theorem toDigits_spec (n : Nat) :
    ∃ (d : Char) (ds : List Char), Nat.toDigits 10 n = d :: ds
      ∧ (∀ c ∈ d :: ds, isdigit c = true) ∧ digitsValue (d :: ds) = n := by
  obtain ⟨l, hl, hne, hall, hval⟩ := toDigitsCore_spec (n + 1) n [] (Nat.lt_succ_self n)
  rw [List.append_nil] at hl
  cases l with
  | nil => exact absurd rfl hne
  | cons d ds => exact ⟨d, ds, hl, hall, hval⟩

/-! ## Lemmas on the loop of `parse` -/

/-- One turn of the loop on a good stream that holds a word followed by whitespace. -/
theorem parseLoop_word (fuel : Nat) (ws : List Char) (a : Char) (w : List Char) (c : Char)
    (rest : List Char) (self : TestHint)
    (hws : ∀ x ∈ ws, isspace x = true) (hw : ∀ x ∈ a :: w, isspace x = false)
    (hc : isspace c = true) :
    parseLoop (fuel + 1) ⟨ws ++ (a :: w ++ c :: rest), false, false⟩ self
      = if a :: w = "serverError".toList then
          parseLoop fuel (extractInt ⟨c :: rest, false, false⟩ self.server_error).1
            { self with
              server_error := (extractInt ⟨c :: rest, false, false⟩ self.server_error).2 }
        else if a :: w = "clientError".toList then
          parseLoop fuel (extractInt ⟨c :: rest, false, false⟩ self.client_error).1
            { self with
              client_error := (extractInt ⟨c :: rest, false, false⟩ self.client_error).2 }
        else parseLoop fuel ⟨c :: rest, false, false⟩ self := by
  rw [parseLoop]
  simp only [extractString_word ws a w c rest hws hw hc]
  simp

/-- The turn of the loop that runs into the end of the stream. -/
theorem parseLoop_end (fuel : Nat) (ws : List Char) (self : TestHint)
    (hws : ∀ x ∈ ws, isspace x = true) :
    parseLoop (fuel + 1) ⟨ws, false, false⟩ self = some self := by
  rw [parseLoop]
  simp only [extractString_end ws hws]
  simp

/-- A turn of the loop that reads the keyword `serverError`. -/
theorem parseLoop_serverError (fuel : Nat) (ws : List Char) (c : Char) (rest : List Char)
    (self : TestHint) (hws : ∀ x ∈ ws, isspace x = true) (hc : isspace c = true) :
    parseLoop (fuel + 1) ⟨ws ++ ('s' :: "erverError".toList ++ c :: rest), false, false⟩ self
      = parseLoop fuel (extractInt ⟨c :: rest, false, false⟩ self.server_error).1
          { self with
            server_error := (extractInt ⟨c :: rest, false, false⟩ self.server_error).2 } := by
  rw [parseLoop_word fuel ws 's' "erverError".toList c rest self hws (by decide) hc]
  exact if_pos rfl

/-- A turn of the loop that reads the keyword `clientError`. -/
theorem parseLoop_clientError (fuel : Nat) (ws : List Char) (c : Char) (rest : List Char)
    (self : TestHint) (hws : ∀ x ∈ ws, isspace x = true) (hc : isspace c = true) :
    parseLoop (fuel + 1) ⟨ws ++ ('c' :: "lientError".toList ++ c :: rest), false, false⟩ self
      = parseLoop fuel (extractInt ⟨c :: rest, false, false⟩ self.client_error).1
          { self with
            client_error := (extractInt ⟨c :: rest, false, false⟩ self.client_error).2 } := by
  rw [parseLoop_word fuel ws 'c' "lientError".toList c rest self hws (by decide) hc]
  have h1 : ¬ ('c' :: "lientError".toList = "serverError".toList) := by decide
  rw [if_neg h1]
  exact if_pos rfl

/-- A turn of the loop that reads a word other than the two keywords. -/
theorem parseLoop_other (fuel : Nat) (ws : List Char) (a : Char) (w : List Char) (c : Char)
    (rest : List Char) (self : TestHint)
    (hws : ∀ x ∈ ws, isspace x = true) (hw : ∀ x ∈ a :: w, isspace x = false)
    (hc : isspace c = true)
    (h1 : a :: w ≠ "serverError".toList) (h2 : a :: w ≠ "clientError".toList) :
    parseLoop (fuel + 1) ⟨ws ++ (a :: w ++ c :: rest), false, false⟩ self
      = parseLoop fuel ⟨c :: rest, false, false⟩ self := by
  rw [parseLoop_word fuel ws a w c rest self hws hw hc, if_neg h1, if_neg h2]

theorem not_isdigit_of_isspace {c : Char} (h : isspace c = true) : isdigit c = false := by
  rw [Bool.eq_false_iff]
  exact fun hd => absurd h (by simp [isspace_of_isdigit hd])

/-- The loop on ` serverError N ` for a numeral `N` within the range of `int`. -/
theorem parseLoop_server_only (f : Nat) (self : TestHint) (d : Char) (ds : List Char)
    (hds : ∀ x ∈ d :: ds, isdigit x = true) (hv : digitsValue (d :: ds) ≤ 2147483647) :
    parseLoop (f + 2) ⟨" serverError ".toList ++ (d :: ds ++ " ".toList), false, false⟩ self
      = some { self with server_error := digitsValue (d :: ds) } := by
  have e : " serverError ".toList ++ (d :: ds ++ " ".toList)
      = [' '] ++ ('s' :: "erverError".toList ++ ' ' :: (d :: ds ++ ' ' :: [])) := rfl
  have hx : extractInt ⟨' ' :: (d :: ds ++ ' ' :: []), false, false⟩ self.server_error
      = (⟨' ' :: [], false, false⟩, (digitsValue (d :: ds) : Int)) :=
    extractInt_digits [' '] d ds ' ' [] self.server_error (by decide) hds (by decide) hv
  rw [e, parseLoop_serverError (f + 1) [' '] ' ' (d :: ds ++ ' ' :: []) self
    (by decide) (by decide), hx]
  exact parseLoop_end f [' '] _ (by decide)

/-- The loop on ` clientError N ` for a numeral `N` within the range of `int`. -/
theorem parseLoop_client_only (f : Nat) (self : TestHint) (d : Char) (ds : List Char)
    (hds : ∀ x ∈ d :: ds, isdigit x = true) (hv : digitsValue (d :: ds) ≤ 2147483647) :
    parseLoop (f + 2) ⟨" clientError ".toList ++ (d :: ds ++ " ".toList), false, false⟩ self
      = some { self with client_error := digitsValue (d :: ds) } := by
  have e : " clientError ".toList ++ (d :: ds ++ " ".toList)
      = [' '] ++ ('c' :: "lientError".toList ++ ' ' :: (d :: ds ++ ' ' :: [])) := rfl
  have hx : extractInt ⟨' ' :: (d :: ds ++ ' ' :: []), false, false⟩ self.client_error
      = (⟨' ' :: [], false, false⟩, (digitsValue (d :: ds) : Int)) :=
    extractInt_digits [' '] d ds ' ' [] self.client_error (by decide) hds (by decide) hv
  rw [e, parseLoop_clientError (f + 1) [' '] ' ' (d :: ds ++ ' ' :: []) self
    (by decide) (by decide), hx]
  exact parseLoop_end f [' '] _ (by decide)

/-- The loop on ` serverError N, clientError M ` for numerals within the range of `int`. -/
theorem parseLoop_server_client (f : Nat) (self : TestHint) (d : Char) (ds : List Char)
    (e : Char) (es : List Char)
    (hds : ∀ x ∈ d :: ds, isdigit x = true) (hv : digitsValue (d :: ds) ≤ 2147483647)
    (hes : ∀ x ∈ e :: es, isdigit x = true) (hw : digitsValue (e :: es) ≤ 2147483647) :
    parseLoop (f + 4)
        ⟨" serverError ".toList ++ (d :: ds ++ (", clientError ".toList ++ (e :: es ++ " ".toList))),
          false, false⟩ self
      = some { self with
          server_error := digitsValue (d :: ds), client_error := digitsValue (e :: es) } := by
  have e1 : " serverError ".toList
        ++ (d :: ds ++ (", clientError ".toList ++ (e :: es ++ " ".toList)))
      = [' '] ++ ('s' :: "erverError".toList ++ ' '
          :: (d :: ds ++ ',' :: (' ' :: ("clientError".toList ++ ' ' :: (e :: es ++ ' ' :: []))))) :=
    rfl
  have hx : extractInt ⟨' ' :: (d :: ds ++ ',' :: (' ' :: ("clientError".toList
        ++ ' ' :: (e :: es ++ ' ' :: [])))), false, false⟩ self.server_error
      = (⟨',' :: (' ' :: ("clientError".toList ++ ' ' :: (e :: es ++ ' ' :: []))), false, false⟩,
          (digitsValue (d :: ds) : Int)) :=
    extractInt_digits [' '] d ds ',' _ self.server_error (by decide) hds (by decide) hv
  have hcomma : ∀ t : TestHint,
      parseLoop (f + 2 + 1)
          ⟨',' :: (' ' :: ("clientError".toList ++ ' ' :: (e :: es ++ ' ' :: []))), false, false⟩ t
        = parseLoop (f + 2)
          ⟨[' '] ++ ('c' :: "lientError".toList ++ ' ' :: (e :: es ++ ' ' :: [])), false, false⟩ t :=
    fun t => parseLoop_other (f + 2) [] ',' [] ' '
      ("clientError".toList ++ ' ' :: (e :: es ++ ' ' :: [])) t (by decide) (by decide)
      (by decide) (by decide) (by decide)
  have hy : ∀ v : Int, extractInt ⟨' ' :: (e :: es ++ ' ' :: []), false, false⟩ v
      = (⟨' ' :: [], false, false⟩, (digitsValue (e :: es) : Int)) :=
    fun v => extractInt_digits [' '] e es ' ' [] v (by decide) hes (by decide) hw
  rw [e1, parseLoop_serverError (f + 3) [' '] ' ' _ self (by decide) (by decide), hx, hcomma,
    parseLoop_clientError (f + 1) [' '] ' ' (e :: es ++ ' ' :: []) _ (by decide) (by decide),
    hy]
  exact parseLoop_end f [' '] _ (by decide)

theorem parse_eq (self : TestHint) (hint : List Char) (f : Nat) (h : hint.length + 1 = f) :
    parse self hint = parseLoop f ⟨hint, false, false⟩ self := by
  subst h; rfl

theorem not_mem_of_all_isdigit (l : List Char) (hall : ∀ x ∈ l, isdigit x = true) (c : Char)
    (hc : isdigit c = false) : c ∉ l :=
  fun hmem => absurd (hall c hmem) (by simp [hc])

/-- The constructor on a query whose only comment token is `token`. -/
theorem new_single_comment (lexer : List Char → List Token) (query : List Char) (token : Token)
    (h : commentTokens (lexer query) = [token]) :
    TestHint.new lexer true query = ofComment { enabled := true } (token.text ++ [' ']) := by
  simp [TestHint.new, fullComment_eq, h]

theorem ofComment_serverError (N : Nat) (hN : N < 2 ^ 31) :
    ofComment { enabled := true } ((serverErrorComment N).text ++ [' ']) = some ⟨true, N, 0⟩ := by
  obtain ⟨d, ds, hd, hall, hval⟩ := toDigits_spec N
  have hrepr : (Nat.repr N).toList = d :: ds := hd
  have e : (serverErrorComment N).text ++ [' ']
      = "-- ".toList ++ '{' :: ((" serverError ".toList ++ (d :: ds ++ " ".toList)) ++ '}' :: [' ']) := by
    have a1 : "-- \x7b serverError ".toList = "-- ".toList ++ '{' :: " serverError ".toList := rfl
    have a2 : " \x7d".toList = " ".toList ++ ['}'] := rfl
    simp only [serverErrorComment, hrepr, a1, a2, List.append_assoc, List.cons_append,
      List.nil_append]
  have hbody : '}' ∉ " serverError ".toList ++ (d :: ds ++ " ".toList) := by
    simp only [List.mem_append, not_or]
    exact ⟨by decide, not_mem_of_all_isdigit _ hall _ (by decide), by decide⟩
  have hlen : (" serverError ".toList ++ (d :: ds ++ " ".toList)).length + 1
      = ds.length + 14 + 2 := by
    have l1 : (" serverError ".toList).length = 13 := rfl
    have l2 : (" ".toList).length = 1 := rfl
    simp only [List.length_append, List.length_cons, l1, l2]
    omega
  rw [e, ofComment_braces _ _ _ _ (by decide) hbody, parse_eq _ _ _ hlen,
    parseLoop_server_only _ _ d ds hall (by rw [hval]; omega), hval]

theorem ofComment_clientError (N : Nat) (hN : N < 2 ^ 31) :
    ofComment { enabled := true } ((clientErrorComment N).text ++ [' ']) = some ⟨true, 0, N⟩ := by
  obtain ⟨d, ds, hd, hall, hval⟩ := toDigits_spec N
  have hrepr : (Nat.repr N).toList = d :: ds := hd
  have e : (clientErrorComment N).text ++ [' ']
      = "-- ".toList ++ '{' :: ((" clientError ".toList ++ (d :: ds ++ " ".toList)) ++ '}' :: [' ']) := by
    have a1 : "-- \x7b clientError ".toList = "-- ".toList ++ '{' :: " clientError ".toList := rfl
    have a2 : " \x7d".toList = " ".toList ++ ['}'] := rfl
    simp only [clientErrorComment, hrepr, a1, a2, List.append_assoc, List.cons_append,
      List.nil_append]
  have hbody : '}' ∉ " clientError ".toList ++ (d :: ds ++ " ".toList) := by
    simp only [List.mem_append, not_or]
    exact ⟨by decide, not_mem_of_all_isdigit _ hall _ (by decide), by decide⟩
  have hlen : (" clientError ".toList ++ (d :: ds ++ " ".toList)).length + 1
      = ds.length + 14 + 2 := by
    have l1 : (" clientError ".toList).length = 13 := rfl
    have l2 : (" ".toList).length = 1 := rfl
    simp only [List.length_append, List.length_cons, l1, l2]
    omega
  rw [e, ofComment_braces _ _ _ _ (by decide) hbody, parse_eq _ _ _ hlen,
    parseLoop_client_only _ _ d ds hall (by rw [hval]; omega), hval]

theorem ofComment_serverClientError (N M : Nat) (hN : N < 2 ^ 31) (hM : M < 2 ^ 31) :
    ofComment { enabled := true } ((serverClientErrorComment N M).text ++ [' '])
      = some ⟨true, N, M⟩ := by
  obtain ⟨d, ds, hd, hall, hval⟩ := toDigits_spec N
  obtain ⟨e, es, he, hall2, hval2⟩ := toDigits_spec M
  have hrepr : (Nat.repr N).toList = d :: ds := hd
  have hrepr2 : (Nat.repr M).toList = e :: es := he
  have e1 : (serverClientErrorComment N M).text ++ [' ']
      = "-- ".toList ++ '{' :: ((" serverError ".toList
          ++ (d :: ds ++ (", clientError ".toList ++ (e :: es ++ " ".toList)))) ++ '}' :: [' ']) := by
    have a1 : "-- \x7b serverError ".toList = "-- ".toList ++ '{' :: " serverError ".toList := rfl
    have a2 : " \x7d".toList = " ".toList ++ ['}'] := rfl
    simp only [serverClientErrorComment, hrepr, hrepr2, a1, a2, List.append_assoc,
      List.cons_append, List.nil_append]
  have hbody : '}' ∉ " serverError ".toList
      ++ (d :: ds ++ (", clientError ".toList ++ (e :: es ++ " ".toList))) := by
    simp only [List.mem_append, not_or]
    exact ⟨by decide, not_mem_of_all_isdigit _ hall _ (by decide), by decide,
      not_mem_of_all_isdigit _ hall2 _ (by decide), by decide⟩
  have hlen : (" serverError ".toList
      ++ (d :: ds ++ (", clientError ".toList ++ (e :: es ++ " ".toList)))).length + 1
      = ds.length + es.length + 27 + 4 := by
    have l1 : (" serverError ".toList).length = 13 := rfl
    have l2 : (" ".toList).length = 1 := rfl
    have l3 : (", clientError ".toList).length = 14 := rfl
    simp only [List.length_append, List.length_cons, l1, l2, l3]
    omega
  rw [e1, ofComment_braces _ _ _ _ (by decide) hbody, parse_eq _ _ _ hlen,
    parseLoop_server_client _ _ d ds e es hall (by rw [hval]; omega) hall2
      (by rw [hval2]; omega), hval, hval2]

/-! ## The loop of `parse` ends -/

theorem length_dropWhile_le (p : Char → Bool) (l : List Char) :
    (l.dropWhile p).length ≤ l.length :=
  (List.dropWhile_sublist p).length_le

theorem sentry_length_le (ss : StringStream) : (sentry ss).1.buf.length ≤ ss.buf.length := by
  unfold sentry
  split
  · exact Nat.le_refl _
  · simp only
    split
    · exact Nat.zero_le _
    · exact length_dropWhile_le _ _

/-- An extraction that yields a non-empty string takes at least one character. -/
theorem extractString_length_lt (ss : StringStream)
    (h : (extractString ss []).2 ≠ []) :
    (extractString ss []).1.buf.length < ss.buf.length := by
  have hs := sentry_length_le ss
  unfold extractString at h ⊢
  rcases hsen : sentry ss with ⟨ss1, ok⟩
  rw [hsen] at h hs
  cases ok with
  | false => exact absurd rfl h
  | true =>
    simp only [if_true] at h ⊢
    have hsplit := congrArg List.length
      (List.takeWhile_append_dropWhile (fun c => !isspace c) ss1.buf)
    rw [List.length_append] at hsplit
    have hpos : 0 < (ss1.buf.takeWhile (fun c => !isspace c)).length :=
      List.length_pos.2 h
    simp only at hs
    omega

theorem extractInt_length_le (ss : StringStream) (v : Int) :
    (extractInt ss v).1.buf.length ≤ ss.buf.length := by
  have hs := sentry_length_le ss
  unfold extractInt
  rcases hsen : sentry ss with ⟨ss1, ok⟩
  rw [hsen] at hs
  cases ok with
  | false => exact hs
  | true =>
    simp only [if_true]
    have hsigned : (match ss1.buf with
        | '-' :: r => (true, r)
        | '+' :: r => (false, r)
        | r => (false, r) : Bool × List Char).2.length ≤ ss1.buf.length := by
      split
      · rename_i heq; rw [heq]; simp
      · rename_i heq; rw [heq]; simp
      · exact Nat.le_refl _
    generalize (match ss1.buf with
        | '-' :: r => (true, r)
        | '+' :: r => (false, r)
        | r => (false, r) : Bool × List Char) = sg at hsigned ⊢
    have hd := length_dropWhile_le isdigit sg.2
    simp only at hs
    split_ifs <;> exact Nat.le_trans hd (Nat.le_trans hsigned hs)

/-- With more fuel than characters in the stream the loop of `parse` returns. -/
theorem parseLoop_total :
    ∀ (fuel : Nat) (ss : StringStream) (self : TestHint), ss.buf.length < fuel →
      ∃ h : TestHint, parseLoop fuel ss self = some h
  | 0, _, _, hlt => absurd hlt (Nat.not_lt_zero _)
  | fuel + 1, ss, self, hlt => by
    rw [parseLoop]
    by_cases heof : ss.eofbit = true
    · exact ⟨self, by simp [heof]⟩
    · by_cases hemp : (extractString ss []).2 = []
      · exact ⟨self, by simp [heof, hemp]⟩
      · have hlt1 := extractString_length_lt ss hemp
        have hs := extractInt_length_le (extractString ss []).1 self.server_error
        have hc := extractInt_length_le (extractString ss []).1 self.client_error
        simp only [heof, List.isEmpty_iff, hemp, if_false, Bool.false_eq_true]
        split
        · exact parseLoop_total fuel _ _ (by omega)
        · split
          · exact parseLoop_total fuel _ _ (by omega)
          · exact parseLoop_total fuel _ _ (by omega)

/-- The call `parse (hint)` returns for every hint. -/
theorem parse_total (self : TestHint) (hint : List Char) :
    ∃ h : TestHint, parse self hint = some h :=
  parseLoop_total (hint.length + 1) ⟨hint, false, false⟩ self (Nat.lt_succ_self _)

/-! ## Reconciliation -/

theorem allErrorsExpected_iff (h : TestHint) (a b : Int) :
    h.allErrorsExpected a b = true
      ↔ (h.server_error ≠ 0 ∨ h.client_error ≠ 0) ∧ h.server_error = a ∧ h.client_error = b := by
  simp [allErrorsExpected, and_assoc]

theorem lostExpectedError_iff (h : TestHint) (a b : Int) :
    h.lostExpectedError a b = true
      ↔ (h.server_error ≠ 0 ∧ a = 0) ∨ (h.client_error ≠ 0 ∧ b = 0) := by
  simp [lostExpectedError]

theorem checkActual_satisfied (LOGICAL_ERROR : Int) (h : TestHint) (o : Outcome)
    (he : h.enabled = true)
    (hall : h.allErrorsExpected o.actual_server_error o.actual_client_error = true) :
    h.checkActual LOGICAL_ERROR o = ⟨false, h, ⟨0, 0, false, none⟩, ""⟩ := by
  simp [checkActual, he, hall]

/-- C1: with test mode off the constructor stores no expectation for any lexer and query
text, and `checkActual` returns `true` and hands back the four outcome values as they
were, whatever they are. -/
theorem disabled_is_identity (lexer : List Char → List Token) (query : List Char)
    (LOGICAL_ERROR : Int) (o : Outcome) :
    ∃ h : TestHint, TestHint.new lexer false query = some h
      ∧ h.serverError = 0 ∧ h.clientError = 0
      ∧ (h.checkActual LOGICAL_ERROR o).ret = true
      ∧ (h.checkActual LOGICAL_ERROR o).outcome.actual_server_error = o.actual_server_error
      ∧ (h.checkActual LOGICAL_ERROR o).outcome.actual_client_error = o.actual_client_error
      ∧ (h.checkActual LOGICAL_ERROR o).outcome.got_exception = o.got_exception
      ∧ (h.checkActual LOGICAL_ERROR o).outcome.last_exception = o.last_exception :=
  ⟨{ enabled := false }, rfl, rfl, rfl, rfl, rfl, rfl, rfl, rfl⟩

/-- C2: with test mode on and decimal `N`, `M` below `2^31`, a query whose only comment
token is `-- { serverError N }` gives `serverError () = N`, `clientError () = 0`; one whose
only comment token is `-- { clientError N }` gives `0` and `N`; one whose only comment
token is `-- { serverError N, clientError M }` gives `N` and `M`. -/
theorem directive_wire_format (lexer : List Char → List Token) (N M : Nat)
    (hN : N < 2 ^ 31) (hM : M < 2 ^ 31) :
    (∀ query, commentTokens (lexer query) = [serverErrorComment N] →
        ∃ h : TestHint, TestHint.new lexer true query = some h
          ∧ h.serverError = N ∧ h.clientError = 0)
      ∧ (∀ query, commentTokens (lexer query) = [clientErrorComment N] →
        ∃ h : TestHint, TestHint.new lexer true query = some h
          ∧ h.serverError = 0 ∧ h.clientError = N)
      ∧ (∀ query, commentTokens (lexer query) = [serverClientErrorComment N M] →
        ∃ h : TestHint, TestHint.new lexer true query = some h
          ∧ h.serverError = N ∧ h.clientError = M) := by
  refine ⟨fun query hq => ⟨⟨true, N, 0⟩, ?_, rfl, rfl⟩,
    fun query hq => ⟨⟨true, 0, N⟩, ?_, rfl, rfl⟩,
    fun query hq => ⟨⟨true, N, M⟩, ?_, rfl, rfl⟩⟩
  · rw [new_single_comment lexer query _ hq, ofComment_serverError N hN]
  · rw [new_single_comment lexer query _ hq, ofComment_clientError N hN]
  · rw [new_single_comment lexer query _ hq, ofComment_serverClientError N M hN hM]

theorem directive_wire_format_witness :
    (∃ h : TestHint,
        TestHint.new commentLexer true "-- \x7b serverError 60 \x7d".toList = some h
          ∧ h.serverError = 60 ∧ h.clientError = 0)
      ∧ (∃ h : TestHint,
        TestHint.new commentLexer true "-- \x7b clientError 60 \x7d".toList = some h
          ∧ h.serverError = 0 ∧ h.clientError = 60)
      ∧ (∃ h : TestHint,
        TestHint.new commentLexer true "-- \x7b serverError 60, clientError 20 \x7d".toList
            = some h
          ∧ h.serverError = 60 ∧ h.clientError = 20) :=
  ⟨(directive_wire_format commentLexer 60 20 (by decide) (by decide)).1
      "-- \x7b serverError 60 \x7d".toList (by decide),
    (directive_wire_format commentLexer 60 20 (by decide) (by decide)).2.1
      "-- \x7b clientError 60 \x7d".toList (by decide),
    (directive_wire_format commentLexer 60 20 (by decide) (by decide)).2.2
      "-- \x7b serverError 60, clientError 20 \x7d".toList (by decide)⟩

/-- C3: an enabled hint with at least one nonzero expected code, both of them equal to
the actual codes, makes `checkActual` return `false`, clear `got_exception` and empty
`last_exception`, whatever exception was held. -/
theorem satisfied_absorbs (LOGICAL_ERROR : Int) (h : TestHint) (o : Outcome)
    (he : h.enabled = true)
    (hnz : h.server_error ≠ 0 ∨ h.client_error ≠ 0)
    (hs : h.server_error = o.actual_server_error)
    (hc : h.client_error = o.actual_client_error) :
    (h.checkActual LOGICAL_ERROR o).ret = false
      ∧ (h.checkActual LOGICAL_ERROR o).outcome.got_exception = false
      ∧ (h.checkActual LOGICAL_ERROR o).outcome.last_exception = none := by
  have hall : h.allErrorsExpected o.actual_server_error o.actual_client_error = true :=
    (allErrorsExpected_iff h _ _).2 ⟨hnz, hs, hc⟩
  simp [checkActual_satisfied LOGICAL_ERROR h o he hall]

theorem satisfied_absorbs_witness :
    (checkActual 49 ⟨true, 60, 0⟩ ⟨60, 0, true, some ⟨"Code: 60", 60⟩⟩).ret = false
      ∧ (checkActual 49 ⟨true, 60, 0⟩ ⟨60, 0, true, some ⟨"Code: 60", 60⟩⟩).outcome.got_exception
          = false
      ∧ (checkActual 49 ⟨true, 60, 0⟩
          ⟨60, 0, true, some ⟨"Code: 60", 60⟩⟩).outcome.last_exception = none :=
  satisfied_absorbs 49 ⟨true, 60, 0⟩ ⟨60, 0, true, some ⟨"Code: 60", 60⟩⟩ rfl
    (Or.inl (by decide)) rfl rfl

/-- C4: for an enabled hint whose expectation is not satisfied and that expects an error
on a channel where none occurred, `checkActual` returns `false`, sets `got_exception`
and puts into `last_exception` a new exception with the message
"Success when error expected" and the code `LOGICAL_ERROR`, the same for all expected
codes. -/
theorem lost_expected_error_is_failure (LOGICAL_ERROR : Int) (h : TestHint) (o : Outcome)
    (he : h.enabled = true)
    (hns : ¬ ((h.server_error ≠ 0 ∨ h.client_error ≠ 0)
      ∧ h.server_error = o.actual_server_error ∧ h.client_error = o.actual_client_error))
    (hl : (h.server_error ≠ 0 ∧ o.actual_server_error = 0)
      ∨ (h.client_error ≠ 0 ∧ o.actual_client_error = 0)) :
    (h.checkActual LOGICAL_ERROR o).ret = false
      ∧ (h.checkActual LOGICAL_ERROR o).outcome.got_exception = true
      ∧ (h.checkActual LOGICAL_ERROR o).outcome.last_exception
          = some ⟨"Success when error expected", LOGICAL_ERROR⟩ := by
  have hall : h.allErrorsExpected o.actual_server_error o.actual_client_error = false := by
    rw [Bool.eq_false_iff]
    exact fun hx => hns ((allErrorsExpected_iff h _ _).1 hx)
  have hlost : h.lostExpectedError o.actual_server_error o.actual_client_error = true :=
    (lostExpectedError_iff h _ _).2 hl
  simp [checkActual, he, hall, hlost]

theorem lost_expected_error_is_failure_witness :
    (checkActual 49 ⟨true, 0, 20⟩ ⟨0, 0, false, none⟩).ret = false
      ∧ (checkActual 49 ⟨true, 0, 20⟩ ⟨0, 0, false, none⟩).outcome.got_exception = true
      ∧ (checkActual 49 ⟨true, 0, 20⟩ ⟨0, 0, false, none⟩).outcome.last_exception
          = some ⟨"Success when error expected", 49⟩ :=
  lost_expected_error_is_failure 49 ⟨true, 0, 20⟩ ⟨0, 0, false, none⟩ rfl (by decide)
    (Or.inr (by decide))

/-- C5: for an enabled hint and an outcome where neither the satisfied condition nor the
lost-expected-error condition holds, `checkActual` returns `true` and hands back both
actual codes, `got_exception` and `last_exception` as they were. -/
theorem mismatch_passes_through (LOGICAL_ERROR : Int) (h : TestHint) (o : Outcome)
    (he : h.enabled = true)
    (hns : ¬ ((h.server_error ≠ 0 ∨ h.client_error ≠ 0)
      ∧ h.server_error = o.actual_server_error ∧ h.client_error = o.actual_client_error))
    (hnl : ¬ ((h.server_error ≠ 0 ∧ o.actual_server_error = 0)
      ∨ (h.client_error ≠ 0 ∧ o.actual_client_error = 0))) :
    (h.checkActual LOGICAL_ERROR o).ret = true
      ∧ (h.checkActual LOGICAL_ERROR o).outcome.actual_server_error = o.actual_server_error
      ∧ (h.checkActual LOGICAL_ERROR o).outcome.actual_client_error = o.actual_client_error
      ∧ (h.checkActual LOGICAL_ERROR o).outcome.got_exception = o.got_exception
      ∧ (h.checkActual LOGICAL_ERROR o).outcome.last_exception = o.last_exception := by
  have hall : h.allErrorsExpected o.actual_server_error o.actual_client_error = false := by
    rw [Bool.eq_false_iff]
    exact fun hx => hns ((allErrorsExpected_iff h _ _).1 hx)
  have hlost : h.lostExpectedError o.actual_server_error o.actual_client_error = false := by
    rw [Bool.eq_false_iff]
    exact fun hx => hnl ((lostExpectedError_iff h _ _).1 hx)
  simp [checkActual, he, hall, hlost]

theorem mismatch_passes_through_witness :
    (checkActual 49 ⟨true, 60, 0⟩ ⟨999, 0, true, some ⟨"Code: 999", 999⟩⟩).ret = true
      ∧ (checkActual 49 ⟨true, 60, 0⟩
          ⟨999, 0, true, some ⟨"Code: 999", 999⟩⟩).outcome.actual_server_error = 999
      ∧ (checkActual 49 ⟨true, 60, 0⟩
          ⟨999, 0, true, some ⟨"Code: 999", 999⟩⟩).outcome.actual_client_error = 0
      ∧ (checkActual 49 ⟨true, 60, 0⟩
          ⟨999, 0, true, some ⟨"Code: 999", 999⟩⟩).outcome.got_exception = true
      ∧ (checkActual 49 ⟨true, 60, 0⟩
          ⟨999, 0, true, some ⟨"Code: 999", 999⟩⟩).outcome.last_exception
          = some ⟨"Code: 999", 999⟩ :=
  mismatch_passes_through 49 ⟨true, 60, 0⟩ ⟨999, 0, true, some ⟨"Code: 999", 999⟩⟩ rfl
    (by decide) (by decide)

/-- C6 as stated fails: the hint built from the comment `-- { serverError 60 }` still
reports `serverError () = 60` after a `checkActual` call that took the satisfied path. -/
theorem expected_fields_not_reset_counterexample :
    TestHint.new commentLexer true "-- \x7b serverError 60 \x7d".toList = some ⟨true, 60, 0⟩
      ∧ (checkActual 49 ⟨true, 60, 0⟩ ⟨60, 0, true, none⟩).ret = false
      ∧ (checkActual 49 ⟨true, 60, 0⟩ ⟨60, 0, true, none⟩).self.serverError = 60
      ∧ ¬ ((checkActual 49 ⟨true, 60, 0⟩ ⟨60, 0, true, none⟩).self.serverError = 0
          ∧ (checkActual 49 ⟨true, 60, 0⟩ ⟨60, 0, true, none⟩).self.clientError = 0) := by
  decide

/-- C6, amended: `checkActual` is `const`; after a call that takes the satisfied path
(enabled hint, expectation satisfied, return value `false`) `serverError ()` and
`clientError ()` are what they were before the call, the values set at construction. -/
theorem expected_fields_kept (LOGICAL_ERROR : Int) (h : TestHint) (o : Outcome)
    (he : h.enabled = true)
    (hall : h.allErrorsExpected o.actual_server_error o.actual_client_error = true) :
    (h.checkActual LOGICAL_ERROR o).ret = false
      ∧ (h.checkActual LOGICAL_ERROR o).self.serverError = h.serverError
      ∧ (h.checkActual LOGICAL_ERROR o).self.clientError = h.clientError := by
  simp [checkActual_satisfied LOGICAL_ERROR h o he hall]

theorem expected_fields_kept_witness :
    (checkActual 49 ⟨true, 60, 0⟩ ⟨60, 0, true, none⟩).ret = false
      ∧ (checkActual 49 ⟨true, 60, 0⟩ ⟨60, 0, true, none⟩).self.serverError
          = serverError ⟨true, 60, 0⟩
      ∧ (checkActual 49 ⟨true, 60, 0⟩ ⟨60, 0, true, none⟩).self.clientError
          = clientError ⟨true, 60, 0⟩ :=
  expected_fields_kept 49 ⟨true, 60, 0⟩ ⟨60, 0, true, none⟩ rfl (by decide)

/-- C7 as stated fails: for the hint `{ serverError 60 }` and the actual codes `60, 0`
the first call is satisfied, and a second call on the same hint with the same actual
codes returns `false`, not `true`. -/
theorem second_check_counterexample :
    allErrorsExpected ⟨true, 60, 0⟩ 60 0 = true
      ∧ (checkActual 49 ⟨true, 60, 0⟩ ⟨60, 0, true, none⟩).ret = false
      ∧ (checkActual 49 (checkActual 49 ⟨true, 60, 0⟩ ⟨60, 0, true, none⟩).self
          ⟨60, 0, true, none⟩).ret ≠ true := by
  decide

/-- C7, amended: when a first `checkActual` call on an enabled hint is satisfied, a
second call on the same hint with the same two actual codes is satisfied again: it
returns `false`, clears `got_exception` and empties `last_exception`. -/
theorem second_check_satisfied_again (LOGICAL_ERROR : Int) (h : TestHint) (o o2 : Outcome)
    (he : h.enabled = true)
    (hall : h.allErrorsExpected o.actual_server_error o.actual_client_error = true)
    (hs : o2.actual_server_error = o.actual_server_error)
    (hc : o2.actual_client_error = o.actual_client_error) :
    (h.checkActual LOGICAL_ERROR o).ret = false
      ∧ ((h.checkActual LOGICAL_ERROR o).self.checkActual LOGICAL_ERROR o2).ret = false
      ∧ ((h.checkActual LOGICAL_ERROR o).self.checkActual LOGICAL_ERROR o2).outcome.got_exception
          = false
      ∧ ((h.checkActual LOGICAL_ERROR o).self.checkActual LOGICAL_ERROR o2).outcome.last_exception
          = none := by
  have hall2 : h.allErrorsExpected o2.actual_server_error o2.actual_client_error = true := by
    rw [hs, hc]; exact hall
  simp [checkActual_satisfied LOGICAL_ERROR h o he hall,
    checkActual_satisfied LOGICAL_ERROR h o2 he hall2]

theorem second_check_satisfied_again_witness :
    (checkActual 49 ⟨true, 60, 0⟩ ⟨60, 0, true, none⟩).ret = false
      ∧ (checkActual 49 (checkActual 49 ⟨true, 60, 0⟩ ⟨60, 0, true, none⟩).self
          ⟨60, 0, true, some ⟨"Code: 60", 60⟩⟩).ret = false
      ∧ (checkActual 49 (checkActual 49 ⟨true, 60, 0⟩ ⟨60, 0, true, none⟩).self
          ⟨60, 0, true, some ⟨"Code: 60", 60⟩⟩).outcome.got_exception = false
      ∧ (checkActual 49 (checkActual 49 ⟨true, 60, 0⟩ ⟨60, 0, true, none⟩).self
          ⟨60, 0, true, some ⟨"Code: 60", 60⟩⟩).outcome.last_exception = none :=
  second_check_satisfied_again 49 ⟨true, 60, 0⟩ ⟨60, 0, true, none⟩
    ⟨60, 0, true, some ⟨"Code: 60", 60⟩⟩ rfl (by decide) rfl rfl

/-- C8: an enabled hint built from a query whose tokens include no comment has both
expected codes `0`; for every outcome (actual codes `0, 0` and `999, 0` among them)
`checkActual` returns `true` and hands back the outcome as it was, and the all-zero
expectation is not satisfied by any actual codes. -/
theorem no_comment_passes_through (lexer : List Char → List Token) (query : List Char)
    (hno : ∀ t ∈ lexer query, t.type ≠ TokenType.Comment) :
    ∃ h : TestHint, TestHint.new lexer true query = some h
      ∧ h.serverError = 0 ∧ h.clientError = 0
      ∧ ∀ (LOGICAL_ERROR : Int) (o : Outcome),
          (h.checkActual LOGICAL_ERROR o).ret = true
            ∧ (h.checkActual LOGICAL_ERROR o).outcome = o
            ∧ h.allErrorsExpected o.actual_server_error o.actual_client_error = false := by
  have hct : commentTokens (lexer query) = [] := by
    simp only [commentTokens, List.filter_eq_nil_iff]
    intro t ht
    simpa using hno t (List.takeWhile_subset _ ht)
  refine ⟨⟨true, 0, 0⟩, ?_, rfl, rfl, ?_⟩
  · simp [TestHint.new, fullComment_eq, hct, ofComment]
  · intro LOGICAL_ERROR o
    simp [checkActual, allErrorsExpected, lostExpectedError]

theorem no_comment_passes_through_witness :
    ∃ h : TestHint, TestHint.new wordLexer true "SELECT".toList = some h
      ∧ h.serverError = 0 ∧ h.clientError = 0
      ∧ ∀ (LOGICAL_ERROR : Int) (o : Outcome),
          (h.checkActual LOGICAL_ERROR o).ret = true
            ∧ (h.checkActual LOGICAL_ERROR o).outcome = o
            ∧ h.allErrorsExpected o.actual_server_error o.actual_client_error = false :=
  no_comment_passes_through wordLexer "SELECT".toList (by decide)

/-! ## Locating the directive -/

/-- C9: when the concatenated comment text is `pre ++ "{" ++ body ++ "}" ++ post` with no
`{` in `pre` and no `}` in `body`, the enabled constructor returns the hint that `parse`
returns on `body` alone, started from the default fields; `post` does not occur in the
result, so no text behind the first `}` (a second brace span included) has any effect on
`serverError ()` or `clientError ()`. -/
theorem only_first_brace_span (lexer : List Char → List Token) (query : List Char)
    (pre body post : List Char)
    (hfc : fullComment (lexer query) [] = pre ++ '{' :: (body ++ '}' :: post))
    (hpre : '{' ∉ pre) (hbody : '}' ∉ body) :
    ∃ h : TestHint, TestHint.new lexer true query = some h
      ∧ parse { enabled := true } body = some h := by
  obtain ⟨h, hh⟩ := parse_total { enabled := true } body
  refine ⟨h, ?_, hh⟩
  rw [← hh]
  simp [TestHint.new, hfc, ofComment_braces _ pre body post hpre hbody]

theorem only_first_brace_span_witness :
    ∃ h : TestHint,
      TestHint.new commentLexer true
          "-- \x7b serverError 60 \x7d \x7b clientError 20 \x7d".toList = some h
        ∧ parse { enabled := true } " serverError 60 ".toList = some h :=
  only_first_brace_span commentLexer
    "-- \x7b serverError 60 \x7d \x7b clientError 20 \x7d".toList
    "-- ".toList " serverError 60 ".toList " \x7b clientError 20 \x7d ".toList
    (by decide) (by decide) (by decide)

/-- C10: when the concatenated comment text of an enabled query has no `{`, or has no
`}` behind its first `{` (a `}` in front of the first `{` does not count), the built
hint has `serverError () = 0` and `clientError () = 0`. -/
theorem missing_brace_no_expectation (lexer : List Char → List Token) (query : List Char)
    (hmiss : '{' ∉ fullComment (lexer query) []
      ∨ ∃ pre post : List Char, fullComment (lexer query) [] = pre ++ '{' :: post
          ∧ '{' ∉ pre ∧ '}' ∉ post) :
    ∃ h : TestHint, TestHint.new lexer true query = some h
      ∧ h.serverError = 0 ∧ h.clientError = 0 := by
  refine ⟨⟨true, 0, 0⟩, ?_, rfl, rfl⟩
  rcases hmiss with hno | ⟨pre, post, hfc, hpre, hpost⟩
  · simp [TestHint.new, ofComment_no_open _ _ hno]
  · simp [TestHint.new, hfc, ofComment_no_close _ pre post hpre hpost]

theorem missing_brace_no_expectation_witness :
    ∃ h : TestHint,
      TestHint.new commentLexer true "-- \x7d \x7b serverError 60".toList = some h
        ∧ h.serverError = 0 ∧ h.clientError = 0 :=
  missing_brace_no_expectation commentLexer "-- \x7d \x7b serverError 60".toList
    (Or.inr ⟨"-- \x7d ".toList, " serverError 60 ".toList, by decide, by decide, by decide⟩)

/-! ## Construction -/

theorem findAux_spec (c : Char) :
    ∀ (xs : List Char) (i q : Nat), findAux c xs i = some q →
      i ≤ q ∧ (xs.drop (q - i)).head? = some c
  | [], _, _, h => by simp [findAux] at h
  | x :: xs, i, q, h => by
    by_cases hx : x = c
    · simp only [findAux, hx, if_true, Option.some.injEq] at h
      subst h
      simp [hx]
    · simp only [findAux, hx, if_false] at h
      obtain ⟨hle, hhead⟩ := findAux_spec c xs (i + 1) q h
      refine ⟨by omega, ?_⟩
      have e : q - i = (q - (i + 1)) + 1 := by omega
      rw [e, List.drop_succ_cons]
      exact hhead

/-- A position returned by `find (c, pos)` is at or behind `pos` and holds `c`. -/
theorem find_spec (s : List Char) (c : Char) (pos q : Nat) (h : find s c pos = some q) :
    pos ≤ q ∧ (s.drop q).head? = some c := by
  obtain ⟨hle, hhead⟩ := findAux_spec c (s.drop pos) pos q h
  refine ⟨hle, ?_⟩
  rw [List.drop_drop] at hhead
  have e : pos + (q - pos) = q := by omega
  rw [← e]
  exact hhead

/-- The `}` found from the position of the `{` stands behind it. -/
theorem close_after_open (s : List Char) (p q : Nat)
    (hp : find s '{' 0 = some p) (hq : find s '}' p = some q) : p + 1 ≤ q := by
  obtain ⟨_, hopen⟩ := find_spec s '{' 0 p hp
  obtain ⟨hle, hclose⟩ := find_spec s '}' p q hq
  rcases Nat.eq_or_lt_of_le hle with heq | hlt
  · subst heq
    rw [hopen] at hclose
    exact absurd hclose (by decide)
  · exact hlt

theorem ofComment_total (self : TestHint) (fc : List Char) :
    ∃ h : TestHint, ofComment self fc = some h := by
  unfold ofComment
  split
  · cases hp : find fc '{' 0 with
    | none => exact ⟨self, rfl⟩
    | some p =>
      simp only
      cases hq : find fc '}' p with
      | none => exact ⟨self, rfl⟩
      | some q =>
        simp only [close_after_open fc p q hp hq, if_true]
        exact parse_total _ _
  · exact ⟨self, rfl⟩

/-- The constructor returns a hint for every lexer, flag and query text. -/
theorem new_total (lexer : List Char → List Token) (enabled : Bool) (query : List Char) :
    ∃ h : TestHint, TestHint.new lexer enabled query = some h := by
  unfold TestHint.new
  cases enabled
  · exact ⟨_, rfl⟩
  · exact ofComment_total _ _

/-- C11: the constructor returns a hint for every lexer, flag and query text; a `}` found
by searching forward from the position `p` of the `{` is at `q ≥ p + 1`, so the body
`[p + 1, q)` is a valid range; and `parse` returns for every body. -/
theorem construction_never_fails :
    (∀ (lexer : List Char → List Token) (enabled : Bool) (query : List Char),
        ∃ h : TestHint, TestHint.new lexer enabled query = some h)
      ∧ (∀ (full_comment : List Char) (p q : Nat),
        find full_comment '{' 0 = some p → find full_comment '}' p = some q → p + 1 ≤ q)
      ∧ (∀ (self : TestHint) (body : List Char), ∃ h : TestHint, parse self body = some h) := by
  exact ⟨new_total, close_after_open, parse_total⟩

theorem construction_never_fails_witness :
    (∃ h : TestHint,
        TestHint.new commentLexer true "-- \x7d \x7b serverError abc".toList = some h)
      ∧ 5 + 1 ≤ 22
      ∧ (∃ h : TestHint, parse { enabled := true } " serverError abc ".toList = some h) :=
  ⟨construction_never_fails.1 commentLexer true "-- \x7d \x7b serverError abc".toList,
    construction_never_fails.2.1 "-- \x7d \x7b serverError 60 \x7d".toList 5 22
      (by decide) (by decide),
    construction_never_fails.2.2 { enabled := true } " serverError abc ".toList⟩

/-! ## Comment extraction -/

theorem new_eq_of_commentTokens (lexer : List Char → List Token) (query : List Char) :
    TestHint.new lexer true query
      = ofComment { enabled := true }
          (((commentTokens (lexer query)).map Token.text).map (fun t => t ++ [' '])).flatten := by
  simp [TestHint.new, fullComment_eq, List.map_map, Function.comp_def]

/-- C13: two enabled queries whose token streams hold the same sequence of comment texts
give the same hint, hence the same `serverError ()` and `clientError ()`; and a query
without a comment token gives `0` and `0` whatever its other tokens contain. -/
theorem depends_only_on_comments (lexer1 lexer2 : List Char → List Token)
    (query1 query2 : List Char)
    (hsame : (commentTokens (lexer1 query1)).map Token.text
      = (commentTokens (lexer2 query2)).map Token.text) :
    (∃ h : TestHint, TestHint.new lexer1 true query1 = some h
        ∧ TestHint.new lexer2 true query2 = some h)
      ∧ ((commentTokens (lexer1 query1)).map Token.text = [] →
        TestHint.new lexer1 true query1 = some ⟨true, 0, 0⟩) := by
  constructor
  · obtain ⟨h, hh⟩ := new_total lexer1 true query1
    refine ⟨h, hh, ?_⟩
    rw [← hh, new_eq_of_commentTokens, new_eq_of_commentTokens, hsame]
  · intro hnil
    rw [new_eq_of_commentTokens, hnil]
    rfl

theorem depends_only_on_comments_witness :
    (∃ h : TestHint,
        TestHint.new
            (fun _ => [⟨TokenType.BareWord, "SELECT".toList⟩,
              ⟨TokenType.Comment, "-- \x7b serverError 60 \x7d".toList⟩,
              ⟨TokenType.EndOfStream, []⟩]) true [] = some h
          ∧ TestHint.new
              (fun _ => [⟨TokenType.StringLiteral, "\x7b clientError 20 \x7d".toList⟩,
                ⟨TokenType.Comment, "-- \x7b serverError 60 \x7d".toList⟩,
                ⟨TokenType.EndOfStream, []⟩]) true [] = some h)
      ∧ TestHint.new wordLexer true "\x7b serverError 60 \x7d".toList = some ⟨true, 0, 0⟩ :=
  ⟨(depends_only_on_comments
      (fun _ => [⟨TokenType.BareWord, "SELECT".toList⟩,
        ⟨TokenType.Comment, "-- \x7b serverError 60 \x7d".toList⟩,
        ⟨TokenType.EndOfStream, []⟩])
      (fun _ => [⟨TokenType.StringLiteral, "\x7b clientError 20 \x7d".toList⟩,
        ⟨TokenType.Comment, "-- \x7b serverError 60 \x7d".toList⟩,
        ⟨TokenType.EndOfStream, []⟩]) [] [] (by decide)).1,
    (depends_only_on_comments wordLexer wordLexer "\x7b serverError 60 \x7d".toList
      "\x7b serverError 60 \x7d".toList rfl).2 (by decide)⟩

theorem flatten_followed_by_space :
    ∀ (texts : List (List Char)), texts ≠ [] →
      (texts.map (fun t => t ++ [' '])).flatten = [' '].intercalate texts ++ [' ']
  | [], h => absurd rfl h
  | [t], _ => by simp [List.intercalate]
  | t :: u :: rest, _ => by
    have ih := flatten_followed_by_space (u :: rest) (by simp)
    simp only [List.map_cons, List.flatten_cons] at ih ⊢
    rw [ih]
    simp [List.intercalate]

/-- C14 as stated fails: for the single comment token `-- a` the accumulated text is
`-- a` followed by a blank, not the token texts with a blank between them. -/
theorem comment_text_counterexample :
    fullComment (commentLexer "-- a".toList) [] = "-- a ".toList
      ∧ fullComment (commentLexer "-- a".toList) []
          ≠ [' '].intercalate ((commentTokens (commentLexer "-- a".toList)).map Token.text) := by
  decide

/-- C14, amended: for every token stream the accumulated comment text is the texts of
the comment tokens, in the order met, each followed by one blank: the texts with one
blank between them and one more blank at the end; it is empty when the stream has no
comment token. -/
theorem comment_text (tokens : List Token) :
    fullComment tokens []
        = ((commentTokens tokens).map (fun t => t.text ++ [' '])).flatten
      ∧ (commentTokens tokens ≠ [] →
        fullComment tokens []
          = [' '].intercalate ((commentTokens tokens).map Token.text) ++ [' '])
      ∧ (commentTokens tokens = [] → fullComment tokens [] = []) := by
  have h := fullComment_eq tokens []
  rw [List.nil_append] at h
  refine ⟨h, fun hne => ?_, fun hnil => ?_⟩
  · rw [h, ← flatten_followed_by_space _ (by simpa using hne), List.map_map]
    rfl
  · rw [h, hnil]
    rfl

theorem comment_text_witness :
    fullComment
        [⟨TokenType.Comment, "/* a */".toList⟩, ⟨TokenType.BareWord, "SELECT".toList⟩,
          ⟨TokenType.Comment, "-- b".toList⟩, ⟨TokenType.EndOfStream, []⟩] []
        = "/* a */ -- b ".toList
      ∧ fullComment (wordLexer "SELECT".toList) [] = [] :=
  ⟨((comment_text
      [⟨TokenType.Comment, "/* a */".toList⟩, ⟨TokenType.BareWord, "SELECT".toList⟩,
        ⟨TokenType.Comment, "-- b".toList⟩, ⟨TokenType.EndOfStream, []⟩]).2.1
      (by decide)).trans (by decide),
    (comment_text (wordLexer "SELECT".toList)).2.2 (by decide)⟩

/-! ## Failed extraction of the number -/

theorem takeWhile_isdigit_nil (x : Char) (l : List Char) (hx : isdigit x = false) :
    (x :: l).takeWhile isdigit = [] ∧ (x :: l).dropWhile isdigit = x :: l := by
  simp [List.takeWhile_cons, List.dropWhile_cons, hx]

/-- On a token that does not begin with an integer `ss >> v` stores `0` and sets
`failbit`; the end of the stream is not reached when whitespace follows the token. -/
theorem extractInt_no_integer (ws : List Char) (x : Char) (xs : List Char) (c : Char)
    (rest : List Char) (v : Int)
    (hws : ∀ a ∈ ws, isspace a = true) (htok : ∀ a ∈ x :: xs, isspace a = false)
    (hc : isspace c = true) (hno : startsWithInteger (x :: xs) = false) :
    ∃ buf : List Char,
      extractInt ⟨ws ++ (x :: xs ++ c :: rest), false, false⟩ v = (⟨buf, false, true⟩, 0) := by
  have hx : isspace x = false := htok x (List.mem_cons_self _ _)
  have hcd : isdigit c = false := not_isdigit_of_isspace hc
  have e : ws ++ (x :: xs ++ c :: rest) = ws ++ x :: (xs ++ c :: rest) := by simp
  rw [extractInt, e, sentry_skip ws x _ hws hx]
  simp only [startsWithInteger, Bool.or_eq_false_iff, Bool.and_eq_false_iff] at hno
  obtain ⟨hxd, hsign⟩ := hno
  have hafter : x = '-' ∨ x = '+' →
      ∃ y l, xs ++ c :: rest = y :: l ∧ isdigit y = false := by
    intro hs
    cases xs with
    | nil => exact ⟨c, rest, rfl, hcd⟩
    | cons y ys =>
      refine ⟨y, ys ++ c :: rest, rfl, ?_⟩
      rcases hsign with h | h
      · rcases hs with hs | hs <;> simp [hs] at h
      · simpa using h
  by_cases hm : x = '-'
  · obtain ⟨y, l, hl, hy⟩ := hafter (Or.inl hm)
    subst hm
    obtain ⟨ht, hd⟩ := takeWhile_isdigit_nil y l hy
    exact ⟨y :: l, by simp [hl, ht, hd]⟩
  · by_cases hp : x = '+'
    · obtain ⟨y, l, hl, hy⟩ := hafter (Or.inr hp)
      subst hp
      obtain ⟨ht, hd⟩ := takeWhile_isdigit_nil y l hy
      exact ⟨y :: l, by simp [hl, ht, hd]⟩
    · have hsigned : (match (x :: (xs ++ c :: rest) : List Char) with
          | '-' :: r => (true, r)
          | '+' :: r => (false, r)
          | r => (false, r)) = (false, x :: (xs ++ c :: rest)) := by
        split
        · rename_i heq; simp at heq; exact absurd heq.1 hm
        · rename_i heq; simp at heq; exact absurd heq.1 hp
        · rfl
      obtain ⟨ht, hd⟩ := takeWhile_isdigit_nil x (xs ++ c :: rest) hxd
      exact ⟨x :: (xs ++ c :: rest), by simp only [if_true, hsigned, ht, hd]; simp⟩

/-- Once `failbit` is set the loop of `parse` ends at its next turn. -/
theorem parseLoop_failbit (fuel : Nat) (buf : List Char) (eofbit : Bool) (self : TestHint) :
    parseLoop (fuel + 1) ⟨buf, eofbit, true⟩ self = some self := by
  rw [parseLoop]
  cases eofbit <;> simp [extractString, sentry]

/-- The keyword `serverError` followed by a token that does not begin with an integer:
the field becomes `0` and the loop ends, whatever follows the token. -/
theorem parseLoop_serverError_no_integer (fuel : Nat) (self : TestHint) (ws ws2 : List Char)
    (c : Char) (x : Char) (xs : List Char) (c2 : Char) (rest : List Char)
    (hws : ∀ a ∈ ws, isspace a = true) (hc : isspace c = true)
    (hws2 : ∀ a ∈ ws2, isspace a = true) (htok : ∀ a ∈ x :: xs, isspace a = false)
    (hc2 : isspace c2 = true) (hno : startsWithInteger (x :: xs) = false) :
    parseLoop (fuel + 2)
        ⟨ws ++ ('s' :: "erverError".toList ++ c :: (ws2 ++ (x :: xs ++ c2 :: rest))),
          false, false⟩ self
      = some { self with server_error := 0 } := by
  have hcws : ∀ a ∈ c :: ws2, isspace a = true := by
    intro a ha
    rcases List.mem_cons.1 ha with h | h
    · rw [h]; exact hc
    · exact hws2 a h
  obtain ⟨buf, hbuf⟩ := extractInt_no_integer (c :: ws2) x xs c2 rest self.server_error
    hcws htok hc2 hno
  rw [parseLoop_serverError (fuel + 1) ws c _ self hws hc]
  have e : c :: (ws2 ++ (x :: xs ++ c2 :: rest)) = (c :: ws2) ++ (x :: xs ++ c2 :: rest) := rfl
  rw [e, hbuf]
  exact parseLoop_failbit fuel buf false _

/-- The keyword `clientError` followed by a token that does not begin with an integer:
the field becomes `0` and the loop ends, whatever follows the token. -/
theorem parseLoop_clientError_no_integer (fuel : Nat) (self : TestHint) (ws ws2 : List Char)
    (c : Char) (x : Char) (xs : List Char) (c2 : Char) (rest : List Char)
    (hws : ∀ a ∈ ws, isspace a = true) (hc : isspace c = true)
    (hws2 : ∀ a ∈ ws2, isspace a = true) (htok : ∀ a ∈ x :: xs, isspace a = false)
    (hc2 : isspace c2 = true) (hno : startsWithInteger (x :: xs) = false) :
    parseLoop (fuel + 2)
        ⟨ws ++ ('c' :: "lientError".toList ++ c :: (ws2 ++ (x :: xs ++ c2 :: rest))),
          false, false⟩ self
      = some { self with client_error := 0 } := by
  have hcws : ∀ a ∈ c :: ws2, isspace a = true := by
    intro a ha
    rcases List.mem_cons.1 ha with h | h
    · rw [h]; exact hc
    · exact hws2 a h
  obtain ⟨buf, hbuf⟩ := extractInt_no_integer (c :: ws2) x xs c2 rest self.client_error
    hcws htok hc2 hno
  rw [parseLoop_clientError (fuel + 1) ws c _ self hws hc]
  have e : c :: (ws2 ++ (x :: xs ++ c2 :: rest)) = (c :: ws2) ++ (x :: xs ++ c2 :: rest) := rfl
  rw [e, hbuf]
  exact parseLoop_failbit fuel buf false _

theorem parse_of_parseLoop (self r : TestHint) (hint : List Char) (hlen : 1 ≤ hint.length)
    (h : ∀ fuel, parseLoop (fuel + 2) ⟨hint, false, false⟩ self = some r) :
    parse self hint = some r := by
  rw [parse_eq self hint (hint.length - 1 + 2) (by omega)]
  exact h _

/-- The call `parse` on a keyword, one blank, a token that does not begin with an
integer, one blank and any text: the field of the keyword becomes `0`, nothing else
is read. -/
theorem parse_keyword_no_integer (self : TestHint) (x : Char) (xs : List Char)
    (rest : List Char)
    (htok : ∀ a ∈ x :: xs, isspace a = false) (hno : startsWithInteger (x :: xs) = false) :
    parse self (" serverError ".toList ++ (x :: xs ++ (' ' :: rest)))
        = some { self with server_error := 0 }
      ∧ parse self (" clientError ".toList ++ (x :: xs ++ (' ' :: rest)))
        = some { self with client_error := 0 } := by
  constructor
  · refine parse_of_parseLoop _ _ _ (by simp) (fun fuel => ?_)
    exact parseLoop_serverError_no_integer fuel self [' '] [] ' ' x xs ' ' rest
      (by decide) (by decide) (by decide) htok (by decide) hno
  · refine parse_of_parseLoop _ _ _ (by simp) (fun fuel => ?_)
    exact parseLoop_clientError_no_integer fuel self [' '] [] ' ' x xs ' ' rest
      (by decide) (by decide) (by decide) htok (by decide) hno

/-! ## Turns of the loop -/

theorem parseLoop_succ (fuel : Nat) (ss : StringStream) (self : TestHint) :
    parseLoop (fuel + 1) ss self
      = match parseTurn ss self with
        | none => some self
        | some p => parseLoop fuel p.1 p.2 := by
  rw [parseLoop]
  unfold parseTurn
  dsimp only
  split_ifs <;> rfl

/-- More fuel does not change a result of the loop. -/
theorem parseLoop_mono :
    ∀ (f : Nat) (ss : StringStream) (self r : TestHint), parseLoop f ss self = some r →
      ∀ k, parseLoop (f + k) ss self = some r
  | 0, _, _, _, h, _ => by simp [parseLoop] at h
  | f + 1, ss, self, r, h, k => by
    rw [Nat.add_right_comm, parseLoop_succ]
    rw [parseLoop_succ] at h
    cases hp : parseTurn ss self with
    | none =>
      rw [hp] at h
      exact h
    | some p =>
      rw [hp] at h
      exact parseLoop_mono f p.1 p.2 r h k

/-- After `n` turns the loop goes on from the state reached. -/
theorem parseLoop_of_turns :
    ∀ (n : Nat) (ss : StringStream) (self : TestHint) (ss' : StringStream) (self' : TestHint),
      parseTurns n ss self = some (ss', self') →
      ∀ f, parseLoop (n + f) ss self = parseLoop f ss' self'
  | 0, ss, self, ss', self', h, f => by
    simp only [parseTurns, Option.some.injEq, Prod.mk.injEq] at h
    rw [Nat.zero_add, h.1, h.2]
  | n + 1, ss, self, ss', self', h, f => by
    rw [Nat.add_right_comm, parseLoop_succ]
    rw [parseTurns] at h
    cases hp : parseTurn ss self with
    | none =>
      rw [hp] at h
      exact absurd h (by simp)
    | some p =>
      rw [hp] at h
      exact parseLoop_of_turns n p.1 p.2 ss' self' h f

/-- When the state reached after `n` turns makes the loop return `r` within two turns,
`parse` returns `r`. -/
theorem parse_of_turns (self : TestHint) (body : List Char) (n : Nat) (ss' : StringStream)
    (self' r : TestHint)
    (hreach : parseTurns n (StringStream.ofString body) self = some (ss', self'))
    (hend : ∀ fuel, parseLoop (fuel + 2) ss' self' = some r) :
    parse self body = some r := by
  obtain ⟨r0, hr0⟩ := parse_total self body
  have h1 := parseLoop_mono _ _ _ _ hr0 (n + 2)
  have hbig : parseLoop (n + 2) (StringStream.ofString body) self = some r := by
    rw [parseLoop_of_turns n _ _ _ _ hreach 2]
    exact hend 0
  have h2 := parseLoop_mono _ _ _ _ hbig (body.length + 1)
  rw [Nat.add_comm] at h2
  rw [hr0]
  exact (h1.symm.trans h2)

/-- On a text that does not begin with an integer `ss >> v` stores `0` and sets
`failbit`. -/
theorem extractInt_fails (ws : List Char) (x : Char) (l : List Char) (v : Int)
    (hws : ∀ a ∈ ws, isspace a = true) (hx : isspace x = false)
    (hno : startsWithInteger (x :: l) = false) :
    ∃ (buf : List Char) (eofbit : Bool),
      extractInt ⟨ws ++ x :: l, false, false⟩ v = (⟨buf, eofbit, true⟩, 0) := by
  rw [extractInt, sentry_skip ws x _ hws hx]
  simp only [startsWithInteger, Bool.or_eq_false_iff, Bool.and_eq_false_iff] at hno
  obtain ⟨hxd, hsign⟩ := hno
  have hafter : x = '-' ∨ x = '+' → l = [] ∨ ∃ y l', l = y :: l' ∧ isdigit y = false := by
    intro hs
    cases l with
    | nil => exact Or.inl rfl
    | cons y ys =>
      refine Or.inr ⟨y, ys, rfl, ?_⟩
      rcases hsign with h | h
      · rcases hs with hs | hs <;> simp [hs] at h
      · simpa using h
  by_cases hm : x = '-'
  · subst hm
    rcases hafter (Or.inl rfl) with hl | ⟨y, l', hl, hy⟩
    · exact ⟨[], true, by simp [hl]⟩
    · obtain ⟨ht, hd⟩ := takeWhile_isdigit_nil y l' hy
      exact ⟨y :: l', false, by simp [hl, ht, hd]⟩
  · by_cases hp : x = '+'
    · subst hp
      rcases hafter (Or.inr rfl) with hl | ⟨y, l', hl, hy⟩
      · exact ⟨[], true, by simp [hl]⟩
      · obtain ⟨ht, hd⟩ := takeWhile_isdigit_nil y l' hy
        exact ⟨y :: l', false, by simp [hl, ht, hd]⟩
    · have hsigned : (match (x :: l : List Char) with
          | '-' :: r => (true, r)
          | '+' :: r => (false, r)
          | r => (false, r)) = (false, x :: l) := by
        split
        · rename_i heq; simp at heq; exact absurd heq.1 hm
        · rename_i heq; simp at heq; exact absurd heq.1 hp
        · rfl
      obtain ⟨ht, hd⟩ := takeWhile_isdigit_nil x l hxd
      exact ⟨x :: l, false, by simp only [if_true, hsigned, ht, hd]; simp⟩

/-- The keyword `serverError` followed by a text that does not begin with an integer:
the field becomes `0` and the loop ends. -/
theorem parseLoop_serverError_fails (fuel : Nat) (self : TestHint) (ws ws2 : List Char)
    (c : Char) (x : Char) (l : List Char)
    (hws : ∀ a ∈ ws, isspace a = true) (hc : isspace c = true)
    (hws2 : ∀ a ∈ ws2, isspace a = true) (hx : isspace x = false)
    (hno : startsWithInteger (x :: l) = false) :
    parseLoop (fuel + 2)
        ⟨ws ++ ('s' :: "erverError".toList ++ c :: (ws2 ++ x :: l)), false, false⟩ self
      = some { self with server_error := 0 } := by
  have hcws : ∀ a ∈ c :: ws2, isspace a = true := by
    intro a ha
    rcases List.mem_cons.1 ha with h | h
    · rw [h]; exact hc
    · exact hws2 a h
  obtain ⟨buf, e, hbuf⟩ := extractInt_fails (c :: ws2) x l self.server_error hcws hx hno
  rw [parseLoop_serverError (fuel + 1) ws c _ self hws hc]
  have e' : c :: (ws2 ++ x :: l) = (c :: ws2) ++ x :: l := rfl
  rw [e', hbuf]
  exact parseLoop_failbit fuel buf e _

/-- The keyword `clientError` followed by a text that does not begin with an integer:
the field becomes `0` and the loop ends. -/
theorem parseLoop_clientError_fails (fuel : Nat) (self : TestHint) (ws ws2 : List Char)
    (c : Char) (x : Char) (l : List Char)
    (hws : ∀ a ∈ ws, isspace a = true) (hc : isspace c = true)
    (hws2 : ∀ a ∈ ws2, isspace a = true) (hx : isspace x = false)
    (hno : startsWithInteger (x :: l) = false) :
    parseLoop (fuel + 2)
        ⟨ws ++ ('c' :: "lientError".toList ++ c :: (ws2 ++ x :: l)), false, false⟩ self
      = some { self with client_error := 0 } := by
  have hcws : ∀ a ∈ c :: ws2, isspace a = true := by
    intro a ha
    rcases List.mem_cons.1 ha with h | h
    · rw [h]; exact hc
    · exact hws2 a h
  obtain ⟨buf, e, hbuf⟩ := extractInt_fails (c :: ws2) x l self.client_error hcws hx hno
  rw [parseLoop_clientError (fuel + 1) ws c _ self hws hc]
  have e' : c :: (ws2 ++ x :: l) = (c :: ws2) ++ x :: l := rfl
  rw [e', hbuf]
  exact parseLoop_failbit fuel buf e _

/-- C12 as stated fails: the hint built from the body ` serverError 60 serverError abc `
has `serverError () = 0`, not `60`. -/
theorem failed_parse_counterexample :
    TestHint.new commentLexer true "-- \x7b serverError 60 serverError abc \x7d".toList
        = some ⟨true, 0, 0⟩
      ∧ serverError ⟨true, 0, 0⟩ ≠ 60 := by
  decide

/-- The same for a token cut off at the next whitespace. -/
theorem startsWithInteger_takeWhile (x : Char) (l : List Char)
    (hno : startsWithInteger (x :: l.takeWhile (fun c => !isspace c)) = false) :
    startsWithInteger (x :: l) = false := by
  cases l with
  | nil => exact hno
  | cons y ys =>
    by_cases hy : isspace y = true
    · have hd : isdigit y = false := not_isdigit_of_isspace hy
      simp only [List.takeWhile_cons, hy, Bool.not_true, Bool.false_eq_true, if_false,
        startsWithInteger, Bool.or_eq_false_iff] at hno
      simp [startsWithInteger, hno.1, hd]
    · simpa [List.takeWhile_cons, hy, startsWithInteger] using hno

/-- A text whose first token is the non-empty `w` and whose next token is not empty is
whitespace, `w`, a whitespace character, whitespace, a character that is no whitespace
and the rest. -/
theorem word_then_token (buf w : List Char) (hw : nextWord buf = w)
    (htok : nextWord (afterWord buf) ≠ []) :
    ∃ (ws ws2 : List Char) (c x : Char) (l : List Char),
      buf = ws ++ (w ++ c :: (ws2 ++ x :: l))
        ∧ (∀ a ∈ ws, isspace a = true) ∧ isspace c = true
        ∧ (∀ a ∈ ws2, isspace a = true) ∧ isspace x = false
        ∧ nextWord (afterWord buf) = x :: l.takeWhile (fun c => !isspace c) := by
  have h1 := List.takeWhile_append_dropWhile isspace buf
  have h2 := List.takeWhile_append_dropWhile (fun c => !isspace c) (buf.dropWhile isspace)
  have hws : ∀ a ∈ buf.takeWhile isspace, isspace a = true :=
    fun a ha => List.mem_takeWhile_imp ha
  cases hb2 : afterWord buf with
  | nil => rw [hb2] at htok; exact absurd rfl htok
  | cons c b2 =>
    have hc : isspace c = true := by
      simpa using dropWhile_head_false _ (buf.dropWhile isspace) c b2 hb2
    have h3 := List.takeWhile_append_dropWhile isspace b2
    have hws2 : ∀ a ∈ b2.takeWhile isspace, isspace a = true :=
      fun a ha => List.mem_takeWhile_imp ha
    have hdrop : (c :: b2).dropWhile isspace = b2.dropWhile isspace := by
      rw [List.dropWhile_cons, if_pos hc]
    cases hb3 : b2.dropWhile isspace with
    | nil =>
      rw [hb2] at htok
      simp only [nextWord, hdrop, hb3, List.takeWhile_nil] at htok
      exact absurd rfl htok
    | cons x l =>
      have hx : isspace x = false := by
        have := dropWhile_head_false isspace b2 x l hb3
        exact this
      refine ⟨buf.takeWhile isspace, b2.takeWhile isspace, c, x, l, ?_, hws, hc, hws2, hx, ?_⟩
      · have e2 : buf.dropWhile isspace = w ++ c :: b2 := by
          rw [← h2]
          exact congrArg₂ (· ++ ·) hw hb2
        rw [← hb3, h3, ← e2, h1]
      · simp [nextWord, hdrop, hb3, List.takeWhile_cons, hx]

/-- C12, amended: for every directive body, whenever the scan comes, after `n` turns of
the loop, to a text whose first whitespace-delimited token is the keyword `serverError`
(respectively `clientError`) and whose next token is there and does not begin with an
integer (a digit, or a sign and a digit), `parse` returns with that field `0`, whatever
value it had before the keyword was seen, and with the other field as the scan had left
it; nothing behind the token is read. -/
theorem failed_parse_stores_zero (self : TestHint) (body : List Char) (n : Nat)
    (reached : TestHint) (text : List Char)
    (hreach : parseTurns n (StringStream.ofString body) self
      = some (⟨text, false, false⟩, reached))
    (htok : nextWord (afterWord text) ≠ [])
    (hno : startsWithInteger (nextWord (afterWord text)) = false) :
    (nextWord text = "serverError".toList →
        parse self body = some { reached with server_error := 0 })
      ∧ (nextWord text = "clientError".toList →
        parse self body = some { reached with client_error := 0 }) := by
  constructor
  · intro hkw
    obtain ⟨ws, ws2, c, x, l, hbuf, hws, hc, hws2, hx, hnext⟩ :=
      word_then_token text _ hkw htok
    rw [hnext] at hno
    rw [hbuf] at hreach
    refine parse_of_turns self body n _ reached _ hreach (fun fuel => ?_)
    exact parseLoop_serverError_fails fuel reached ws ws2 c x l hws hc hws2 hx
      (startsWithInteger_takeWhile x l hno)
  · intro hkw
    obtain ⟨ws, ws2, c, x, l, hbuf, hws, hc, hws2, hx, hnext⟩ :=
      word_then_token text _ hkw htok
    rw [hnext] at hno
    rw [hbuf] at hreach
    refine parse_of_turns self body n _ reached _ hreach (fun fuel => ?_)
    exact parseLoop_clientError_fails fuel reached ws ws2 c x l hws hc hws2 hx
      (startsWithInteger_takeWhile x l hno)

theorem failed_parse_stores_zero_witness :
    parse { enabled := true } " serverError 60 serverError abc ".toList = some ⟨true, 0, 0⟩
      ∧ parse { enabled := true } " serverError 60 clientError abc serverError xyz ".toList
        = some ⟨true, 60, 0⟩
      ∧ parse ⟨true, 60, 7⟩ " foo serverError abc".toList = some ⟨true, 0, 7⟩
      ∧ parse { enabled := true } " serverError abc ".toList = some ⟨true, 0, 0⟩ :=
  ⟨(failed_parse_stores_zero { enabled := true } " serverError 60 serverError abc ".toList
      1 ⟨true, 60, 0⟩ " serverError abc ".toList (by decide) (by decide) (by decide)).1
      (by decide),
    (failed_parse_stores_zero { enabled := true }
      " serverError 60 clientError abc serverError xyz ".toList
      1 ⟨true, 60, 0⟩ " clientError abc serverError xyz ".toList
      (by decide) (by decide) (by decide)).2 (by decide),
    (failed_parse_stores_zero ⟨true, 60, 7⟩ " foo serverError abc".toList
      1 ⟨true, 60, 7⟩ " serverError abc".toList (by decide) (by decide) (by decide)).1
      (by decide),
    (failed_parse_stores_zero { enabled := true } " serverError abc ".toList
      0 { enabled := true } " serverError abc ".toList (by decide) (by decide) (by decide)).1
      (by decide)⟩

/-- C17 as stated fails: the hint built from the body ` serverError abc clientError 5 `
has `clientError () = 0`, not `5`, and the one built from
` clientError abc serverError 5 ` has `serverError () = 0`. -/
theorem scan_after_failure_counterexample :
    TestHint.new commentLexer true "-- \x7b serverError abc clientError 5 \x7d".toList
        = some ⟨true, 0, 0⟩
      ∧ clientError ⟨true, 0, 0⟩ ≠ 5
      ∧ TestHint.new commentLexer true "-- \x7b clientError abc serverError 5 \x7d".toList
        = some ⟨true, 0, 0⟩ := by
  decide

/-- C17, amended: scanning ends at a failed extraction. For a body of the form
` serverError X clientError M ` where the token `X` does not begin with an integer (a
digit, or a sign and a digit) and `M` is a decimal number, `parse` on a fresh hint
leaves `clientError () = 0` and `serverError () = 0`; the same with the two keywords
swapped. -/
theorem scan_stops_at_failure (x : Char) (xs : List Char) (M : Nat)
    (htok : ∀ a ∈ x :: xs, isspace a = false) (hno : startsWithInteger (x :: xs) = false) :
    parse { enabled := true }
        (" serverError ".toList ++ (x :: xs ++ (" clientError ".toList
          ++ ((Nat.repr M).toList ++ " ".toList))))
        = some ⟨true, 0, 0⟩
      ∧ parse { enabled := true }
        (" clientError ".toList ++ (x :: xs ++ (" serverError ".toList
          ++ ((Nat.repr M).toList ++ " ".toList))))
        = some ⟨true, 0, 0⟩ := by
  constructor
  · exact (parse_keyword_no_integer { enabled := true } x xs _ htok hno).1
  · exact (parse_keyword_no_integer { enabled := true } x xs _ htok hno).2

theorem scan_stops_at_failure_witness :
    parse { enabled := true } " serverError abc clientError 5 ".toList = some ⟨true, 0, 0⟩
      ∧ parse { enabled := true } " clientError abc serverError 5 ".toList
        = some ⟨true, 0, 0⟩ :=
  scan_stops_at_failure 'a' ['b', 'c'] 5 (by decide) (by decide)

/-! ## Keywords -/

theorem words_cons_space (c : Char) (l : List Char) (hc : isspace c = true) :
    words (c :: l) = words l := by
  simp [words, List.splitOnP_cons, hc]

theorem words_append_spaces :
    ∀ (ws l : List Char), (∀ a ∈ ws, isspace a = true) → words (ws ++ l) = words l
  | [], _, _ => rfl
  | a :: ws, l, h => by
    rw [List.cons_append, words_cons_space a _ (h a (List.mem_cons_self _ _))]
    exact words_append_spaces ws l (fun b hb => h b (List.mem_cons_of_mem _ hb))

/-- A word followed by the end of the text or by whitespace is the first of the
whitespace-delimited tokens. -/
theorem words_takeWhile (l : List Char)
    (hne : l.takeWhile (fun c => !isspace c) ≠ []) :
    words l = l.takeWhile (fun c => !isspace c)
      :: words (l.dropWhile (fun c => !isspace c)) := by
  have hw : ∀ a ∈ l.takeWhile (fun c => !isspace c), ¬ (isspace a = true) := by
    intro a ha
    simpa using List.mem_takeWhile_imp ha
  have hsplit := List.takeWhile_append_dropWhile (fun c => !isspace c) l
  cases hr : l.dropWhile (fun c => !isspace c) with
  | nil =>
    rw [hr, List.append_nil] at hsplit
    rw [hsplit] at hw hne
    rw [hsplit]
    simp [words, List.splitOnP_eq_single isspace l hw, hne]
  | cons c r =>
    have hc : isspace c = true := by
      simpa using dropWhile_head_false _ l c r hr
    rw [hr] at hsplit
    conv_lhs => rw [← hsplit]
    rw [words, List.splitOnP_first isspace _ hw c hc r, words_cons_space c r hc]
    simp [words, hne]

/-- An extraction that yields a word yields the first whitespace-delimited token of the
stream and leaves the others. -/
theorem extractString_words (ss : StringStream) (h : (extractString ss []).2 ≠ []) :
    words ss.buf = (extractString ss []).2 :: words (extractString ss []).1.buf := by
  unfold extractString at h ⊢
  unfold sentry at h ⊢
  by_cases hgood : (ss.eofbit || ss.failbit) = true
  · simp [hgood] at h
  · simp only [hgood, if_false, Bool.false_eq_true] at h ⊢
    by_cases hemp : (ss.buf.dropWhile isspace).isEmpty = true
    · simp [hemp] at h
    · simp only [hemp, if_false, Bool.false_eq_true, if_true] at h ⊢
      have hsp := List.takeWhile_append_dropWhile isspace ss.buf
      have hws : ∀ a ∈ ss.buf.takeWhile isspace, isspace a = true :=
        fun a ha => List.mem_takeWhile_imp ha
      conv_lhs => rw [← hsp, words_append_spaces _ _ hws]
      exact words_takeWhile _ h

/-- Without a keyword among the whitespace-delimited tokens the loop of `parse` returns
the object as it was. -/
theorem parseLoop_no_keyword :
    ∀ (fuel : Nat) (ss : StringStream) (self : TestHint), ss.buf.length < fuel →
      "serverError".toList ∉ words ss.buf → "clientError".toList ∉ words ss.buf →
      parseLoop fuel ss self = some self
  | 0, _, _, hlt, _, _ => absurd hlt (Nat.not_lt_zero _)
  | fuel + 1, ss, self, hlt, hs, hc => by
    rw [parseLoop]
    by_cases heof : ss.eofbit = true
    · simp [heof]
    · by_cases hemp : (extractString ss []).2 = []
      · simp [heof, hemp]
      · have hwords := extractString_words ss hemp
        have hlt1 := extractString_length_lt ss hemp
        rw [hwords] at hs hc
        have h1 : ¬ ((extractString ss []).2 = "serverError".toList) :=
          fun e => hs (e ▸ List.mem_cons_self _ _)
        have h2 : ¬ ((extractString ss []).2 = "clientError".toList) :=
          fun e => hc (e ▸ List.mem_cons_self _ _)
        simp only [heof, List.isEmpty_iff, hemp, if_false, Bool.false_eq_true, h1, h2]
        exact parseLoop_no_keyword fuel _ self (by omega)
          (fun hm => hs (List.mem_cons_of_mem _ hm)) (fun hm => hc (List.mem_cons_of_mem _ hm))

/-- C18: when none of the whitespace-delimited tokens of the directive body is exactly
`serverError` or `clientError`, `parse` leaves the hint as it was, and the hint the
enabled constructor builds from a comment text with that body has `serverError () = 0`
and `clientError () = 0`. -/
theorem keywords_matched_exactly (lexer : List Char → List Token) (query : List Char)
    (pre body post : List Char)
    (hfc : fullComment (lexer query) [] = pre ++ '{' :: (body ++ '}' :: post))
    (hpre : '{' ∉ pre) (hbody : '}' ∉ body)
    (hs : "serverError".toList ∉ words body) (hc : "clientError".toList ∉ words body) :
    (∀ self : TestHint, parse self body = some self)
      ∧ ∃ h : TestHint, TestHint.new lexer true query = some h
          ∧ h.serverError = 0 ∧ h.clientError = 0 := by
  have hparse : ∀ self : TestHint, parse self body = some self :=
    fun self => parseLoop_no_keyword _ _ self (Nat.lt_succ_self _) hs hc
  refine ⟨hparse, ⟨true, 0, 0⟩, ?_, rfl, rfl⟩
  simp [TestHint.new, hfc, ofComment_braces _ pre body post hpre hbody, hparse]

theorem keywords_matched_exactly_witness :
    (∀ self : TestHint, parse self " servererror 60 SERVERERROR 60 20 fooError 7 ".toList
        = some self)
      ∧ ∃ h : TestHint,
          TestHint.new commentLexer true
              "-- \x7b servererror 60 SERVERERROR 60 20 fooError 7 \x7d".toList = some h
            ∧ h.serverError = 0 ∧ h.clientError = 0 :=
  keywords_matched_exactly commentLexer
    "-- \x7b servererror 60 SERVERERROR 60 20 fooError 7 \x7d".toList
    "-- ".toList " servererror 60 SERVERERROR 60 20 fooError 7 ".toList " ".toList
    (by decide) (by decide) (by decide) (by decide) (by decide)

/-! ## Reconciliation, further properties -/

/-- C15 as stated fails: for the hint built from `-- { clientError 20 }` and an outcome
with both actual codes `0` and no exception, the exception left in `last_exception` has
the message "Success when error expected", which does not contain "client error 20". -/
theorem lost_expectation_message_counterexample :
    TestHint.new commentLexer true "-- \x7b clientError 20 \x7d".toList = some ⟨true, 0, 20⟩
      ∧ (checkActual 49 ⟨true, 0, 20⟩ ⟨0, 0, false, none⟩).outcome.last_exception
          = some ⟨"Success when error expected", 49⟩
      ∧ ¬ ("client error 20".toList <:+: "Success when error expected".toList) := by
  decide

/-- C15, amended: for the hint `{ clientError 20 }` and an outcome with both actual codes
`0` and no exception, `checkActual` returns `false`, sets `got_exception` and leaves in
`last_exception` the exception with the fixed message "Success when error expected" and
the code `LOGICAL_ERROR`; the expected codes are named in the line written to
`std::cerr`, "Success when error expected. It expects server error 0, client error 20.". -/
theorem lost_expectation_message (LOGICAL_ERROR : Int) (last_exception : Option Exception) :
    (checkActual LOGICAL_ERROR ⟨true, 0, 20⟩ ⟨0, 0, false, last_exception⟩).ret = false
      ∧ (checkActual LOGICAL_ERROR ⟨true, 0, 20⟩
          ⟨0, 0, false, last_exception⟩).outcome.got_exception = true
      ∧ (checkActual LOGICAL_ERROR ⟨true, 0, 20⟩
          ⟨0, 0, false, last_exception⟩).outcome.last_exception
          = some ⟨"Success when error expected", LOGICAL_ERROR⟩
      ∧ (checkActual LOGICAL_ERROR ⟨true, 0, 20⟩ ⟨0, 0, false, last_exception⟩).cerr
          = "Success when error expected. It expects server error 0, client error 20.\n" := by
  exact ⟨rfl, rfl, rfl, rfl⟩

/-- C16: an enabled hint that expects only the server error `N ≠ 0` is not satisfied by
an outcome with the server error `N` and a client error `M ≠ 0`: `checkActual` returns
`true` and hands back both actual codes, `got_exception` and `last_exception` as they
were; the same with the two channels swapped. -/
theorem both_channels_compared (LOGICAL_ERROR N M : Int) (got_exception : Bool)
    (last_exception : Option Exception) (hN : N ≠ 0) (hM : M ≠ 0) :
    (allErrorsExpected ⟨true, N, 0⟩ N M = false
        ∧ (checkActual LOGICAL_ERROR ⟨true, N, 0⟩ ⟨N, M, got_exception, last_exception⟩).ret
            = true
        ∧ (checkActual LOGICAL_ERROR ⟨true, N, 0⟩
            ⟨N, M, got_exception, last_exception⟩).outcome
            = ⟨N, M, got_exception, last_exception⟩)
      ∧ (allErrorsExpected ⟨true, 0, N⟩ M N = false
        ∧ (checkActual LOGICAL_ERROR ⟨true, 0, N⟩ ⟨M, N, got_exception, last_exception⟩).ret
            = true
        ∧ (checkActual LOGICAL_ERROR ⟨true, 0, N⟩
            ⟨M, N, got_exception, last_exception⟩).outcome
            = ⟨M, N, got_exception, last_exception⟩) := by
  have hM' : ¬ (0 = M) := fun e => hM e.symm
  simp [checkActual, allErrorsExpected, lostExpectedError, hN, hM, hM']

theorem both_channels_compared_witness :
    (allErrorsExpected ⟨true, 60, 0⟩ 60 20 = false
        ∧ (checkActual 49 ⟨true, 60, 0⟩ ⟨60, 20, true, some ⟨"Code: 60", 60⟩⟩).ret = true
        ∧ (checkActual 49 ⟨true, 60, 0⟩ ⟨60, 20, true, some ⟨"Code: 60", 60⟩⟩).outcome
            = ⟨60, 20, true, some ⟨"Code: 60", 60⟩⟩)
      ∧ (allErrorsExpected ⟨true, 0, 60⟩ 20 60 = false
        ∧ (checkActual 49 ⟨true, 0, 60⟩ ⟨20, 60, true, some ⟨"Code: 60", 60⟩⟩).ret = true
        ∧ (checkActual 49 ⟨true, 0, 60⟩ ⟨20, 60, true, some ⟨"Code: 60", 60⟩⟩).outcome
            = ⟨20, 60, true, some ⟨"Code: 60", 60⟩⟩) :=
  both_channels_compared 49 60 20 true (some ⟨"Code: 60", 60⟩) (by decide) (by decide)

/-- C19: for all values of the two expected and the two actual codes `allErrorsExpected`
and `lostExpectedError` are not both true, and `checkActual` gives the same result as
the variant that tests `lostExpectedError` first. -/
theorem satisfied_and_lost_exclusive (h : TestHint) (actual_server_error actual_client_error : Int) :
    ¬ (h.allErrorsExpected actual_server_error actual_client_error = true
        ∧ h.lostExpectedError actual_server_error actual_client_error = true)
      ∧ ∀ (LOGICAL_ERROR : Int) (got_exception : Bool) (last_exception : Option Exception),
          h.checkActual LOGICAL_ERROR
              ⟨actual_server_error, actual_client_error, got_exception, last_exception⟩
            = h.checkActualSwapped LOGICAL_ERROR
              ⟨actual_server_error, actual_client_error, got_exception, last_exception⟩ := by
  have hex : ¬ (h.allErrorsExpected actual_server_error actual_client_error = true
      ∧ h.lostExpectedError actual_server_error actual_client_error = true) := by
    rintro ⟨hall, hlost⟩
    obtain ⟨_, hs, hc⟩ := (allErrorsExpected_iff h _ _).1 hall
    rcases (lostExpectedError_iff h _ _).1 hlost with ⟨hne, hz⟩ | ⟨hne, hz⟩
    · exact hne (hs.trans hz)
    · exact hne (hc.trans hz)
  refine ⟨hex, fun LOGICAL_ERROR got_exception last_exception => ?_⟩
  unfold checkActual checkActualSwapped
  cases hall : h.allErrorsExpected actual_server_error actual_client_error
  · rfl
  · cases hlost : h.lostExpectedError actual_server_error actual_client_error
    · rfl
    · exact absurd ⟨hall, hlost⟩ hex

/-- C20: on the satisfied path (enabled hint, `allErrorsExpected` true) both actual codes
are `0` after `checkActual`; on every other path (disabled, lost expectation,
pass-through) both actual codes are what they were. -/
theorem actual_codes_zeroed_when_satisfied (LOGICAL_ERROR : Int) (h : TestHint) (o : Outcome) :
    ((h.enabled = true
          ∧ h.allErrorsExpected o.actual_server_error o.actual_client_error = true) →
        (h.checkActual LOGICAL_ERROR o).outcome.actual_server_error = 0
          ∧ (h.checkActual LOGICAL_ERROR o).outcome.actual_client_error = 0)
      ∧ (¬ (h.enabled = true
          ∧ h.allErrorsExpected o.actual_server_error o.actual_client_error = true) →
        (h.checkActual LOGICAL_ERROR o).outcome.actual_server_error = o.actual_server_error
          ∧ (h.checkActual LOGICAL_ERROR o).outcome.actual_client_error
              = o.actual_client_error) := by
  constructor
  · rintro ⟨he, hall⟩
    simp [checkActual_satisfied LOGICAL_ERROR h o he hall]
  · intro hn
    unfold checkActual
    cases he : h.enabled
    · simp
    · cases hall : h.allErrorsExpected o.actual_server_error o.actual_client_error
      · cases hlost : h.lostExpectedError o.actual_server_error o.actual_client_error <;> simp
      · exact absurd ⟨he, hall⟩ hn

theorem actual_codes_zeroed_when_satisfied_witness :
    ((checkActual 49 ⟨true, 60, 0⟩ ⟨60, 0, true, none⟩).outcome.actual_server_error = 0
        ∧ (checkActual 49 ⟨true, 60, 0⟩ ⟨60, 0, true, none⟩).outcome.actual_client_error = 0)
      ∧ ((checkActual 49 ⟨true, 60, 0⟩ ⟨0, 7, false, none⟩).outcome.actual_server_error = 0
        ∧ (checkActual 49 ⟨true, 60, 0⟩ ⟨0, 7, false, none⟩).outcome.actual_client_error = 7) :=
  ⟨(actual_codes_zeroed_when_satisfied 49 ⟨true, 60, 0⟩ ⟨60, 0, true, none⟩).1
      ⟨rfl, by decide⟩,
    (actual_codes_zeroed_when_satisfied 49 ⟨true, 60, 0⟩ ⟨0, 7, false, none⟩).2
      (by decide)⟩

end DB
